import Mathlib

/-
  Verification development for the chunked/resumable video-upload controller
  of the EduLearn LMS repository (the EnhancedVideoUpload client component).

  The component is a sequential client-side orchestrator:
  file validation -> session initialization -> chunk partitioning ->
  sequential chunk transfer with progress/speed/ETA tracking -> completion
  handshake.  We embed it shallowly:

  * JS numbers that hold byte counts are Nat; derived ratios (percentage,
    speed, remaining) are Rat.
  * React state updates (setX) are modeled as explicit state passing with
    immediate visibility: the orchestrator reads its own writes, which is
    the evident sequential dataflow of the code.
  * Network calls are modeled by an environment (Env) that decides each
    response, and by an emitted trace of NetEvent values, one per request.
  * A thrown JS exception is an `Option String` result (`some message`).
-/

/-- A selected file as the component sees it: `name`, byte `size`, and the
declared MIME `type`. -/
structure JsFile where
  name : String
  size : Nat
  type : String
deriving DecidableEq

/-- JS `String.prototype.split` with a one-character separator, on the
character list of the string.  `split` never returns an empty array:
splitting the empty string yields `[""]`. -/
def splitOnChar (sep : Char) : List Char → List (List Char)
  | [] => [[]]
  | c :: cs =>
    let r := splitOnChar sep cs
    if c = sep then [] :: r
    else
      match r with
      | [] => [[c]]
      | h :: t => (c :: h) :: t

/-- The extension computed by `file.name.split('.').pop()?.toLowerCase()`:
the last dot-separated segment of the name, lowercased.  `pop()` is
`undefined` only on an empty array, which `split` never produces, but the
`Option` shape of the JS expression is kept. -/
def fileExtension (name : String) : Option String :=
  ((splitOnChar '.' name.data).getLast?).map fun l => String.mk (l.map Char.toLower)

/-- JS `String.prototype.startsWith`. -/
def jsStartsWith (pre s : String) : Bool :=
  pre.data.isPrefixOf s.data

/-- JS whitespace test for the characters `trim` removes (the ones that can
occur in this component's inputs). -/
def isJsWhitespace (c : Char) : Bool :=
  c = ' ' || c = '\t' || c = '\n' || c = '\r'

/-- JS `String.prototype.trim`. -/
def jsTrim (s : String) : String :=
  String.mk (((s.data.dropWhile isJsWhitespace).reverse.dropWhile isJsWhitespace).reverse)

/-- Truthiness of a JS `string | null | undefined` value: `null`,
`undefined` and `""` are falsy. -/
def jsTruthyS : Option String → Bool
  | none => false
  | some s => !(s == "")

/-- The three rejection reasons of `validateFile`.  The human-readable
message strings of the source interpolate sizes with `toFixed(2)`; only the
branch taken is modeled. -/
inductive ValidationErrorKind
  | sizeExceeded
  | formatNotSupported
  | notVideo
deriving DecidableEq

/-- Result shape `{ valid: boolean; error?: string }` of `validateFile`,
with the error message abstracted to its branch. -/
structure ValidationResult where
  valid : Bool
  error : Option ValidationErrorKind
deriving DecidableEq

/-- `DEFAULT_CHUNK_SIZE = 5 * 1024 * 1024`. -/
def DEFAULT_CHUNK_SIZE : Nat := 5 * 1024 * 1024

/-- `DEFAULT_MAX_FILE_SIZE = 2 * 1024 * 1024 * 1024`. -/
def DEFAULT_MAX_FILE_SIZE : Nat := 2 * 1024 * 1024 * 1024

/-- `SUPPORTED_FORMATS`. -/
def SUPPORTED_FORMATS : List String :=
  ["mp4", "avi", "mov", "wmv", "flv", "webm", "mkv", "m4v"]

/-- `validateFile`: size check, then extension check
(`!extension || !allowedFormats.includes(extension)`, where the empty
string is falsy), then media-type check (`file.type.startsWith('video/')`). -/
def validateFile (maxFileSize : Nat) (allowedFormats : List String)
    (file : JsFile) : ValidationResult :=
  if file.size > maxFileSize then
    { valid := false, error := some .sizeExceeded }
  else
    match fileExtension file.name with
    | none => { valid := false, error := some .formatNotSupported }
    | some extension =>
      if extension == "" || !(allowedFormats.contains extension) then
        { valid := false, error := some .formatNotSupported }
      else if !(jsStartsWith "video/" file.type) then
        { valid := false, error := some .notVideo }
      else
        { valid := true, error := none }

/-- One element of the `chunks` array: `{ chunk, index, start, end,
uploaded }`.  The blob `chunk = file.slice(start, end)` is represented by
its byte length `chunkLen = end - start` (the field `end` is a Lean keyword
and is named `endPos`). -/
structure UploadChunk where
  index : Nat
  start : Nat
  endPos : Nat
  chunkLen : Nat
  uploaded : Bool
deriving DecidableEq

/-- The chunk-partitioning loop of `initializeUpload`:
`while (start < fileSize) { end = min(start + chunkSize, fileSize); push;
start = end; index++ }`.  The loop guard is strengthened with
`0 < chunkSize`, under which the source loop terminates; with
`chunkSize = 0` the source would never terminate, so no claim concerns that
case. -/
def createChunks (fileSize chunkSize : Nat) (start index : Nat) : List UploadChunk :=
  if h : start < fileSize ∧ 0 < chunkSize then
    let e := min (start + chunkSize) fileSize
    { index := index, start := start, endPos := e,
      chunkLen := e - start, uploaded := false } ::
      createChunks fileSize chunkSize e (index + 1)
  else
    []
termination_by fileSize - start
decreasing_by
  simp only [gt_iff_lt]
  omega

/-- The chunk list produced by `initializeUpload` for a file of the given
size. -/
def initializeChunks (fileSize chunkSize : Nat) : List UploadChunk :=
  createChunks fileSize chunkSize 0 0

/-- `ceil(fileSize / chunkSize)` as computed on naturals. -/
def numChunks (fileSize chunkSize : Nat) : Nat :=
  (fileSize + chunkSize - 1) / chunkSize

/-- Closed form of the `j`-th produced chunk when partitioning the byte
range starting at `s` with first index `i`. -/
def chunkAt (fileSize chunkSize s i : Nat) (j : Nat) : UploadChunk :=
  { index := i + j
    start := s + j * chunkSize
    endPos := min (s + (j + 1) * chunkSize) fileSize
    chunkLen := min (s + (j + 1) * chunkSize) fileSize - (s + j * chunkSize)
    uploaded := false }

theorem createChunks_stop (fileSize chunkSize start index : Nat)
    (h : ¬(start < fileSize ∧ 0 < chunkSize)) :
    createChunks fileSize chunkSize start index = [] := by
  rw [createChunks]
  simp [h]

theorem createChunks_step (fileSize chunkSize start index : Nat)
    (h1 : start < fileSize) (h2 : 0 < chunkSize) :
    createChunks fileSize chunkSize start index =
      { index := index, start := start, endPos := min (start + chunkSize) fileSize,
        chunkLen := min (start + chunkSize) fileSize - start, uploaded := false } ::
        createChunks fileSize chunkSize (min (start + chunkSize) fileSize) (index + 1) := by
  rw [createChunks]
  simp [h1, h2]

theorem numChunks_zero (cs : Nat) : numChunks 0 cs = 0 := by
  unfold numChunks
  rcases Nat.eq_zero_or_pos cs with h | h
  · subst h; rfl
  · apply Nat.div_eq_of_lt; omega

theorem numChunks_add_right (x cs : Nat) (hcs : 0 < cs) :
    numChunks (x + cs) cs = numChunks x cs + 1 := by
  unfold numChunks
  have h : x + cs + cs - 1 = (x + cs - 1) + cs := by omega
  rw [h, Nat.add_div_right _ hcs]

theorem numChunks_eq_pred_div (x cs : Nat) (hx : 0 < x) (hcs : 0 < cs) :
    numChunks x cs = (x - 1) / cs + 1 := by
  unfold numChunks
  have h : x + cs - 1 = (x - 1) + cs := by omega
  rw [h, Nat.add_div_right _ hcs]

theorem numChunks_one (x cs : Nat) (hx : 0 < x) (hcs : 0 < cs) (hle : x ≤ cs) :
    numChunks x cs = 1 := by
  rw [numChunks_eq_pred_div x cs hx hcs, Nat.div_eq_of_lt (by omega)]

theorem numChunks_pos (x cs : Nat) (hx : 0 < x) (hcs : 0 < cs) :
    0 < numChunks x cs := by
  rw [numChunks_eq_pred_div x cs hx hcs]
  exact Nat.succ_pos _

theorem le_numChunks_mul (x cs : Nat) (hcs : 0 < cs) : x ≤ numChunks x cs * cs := by
  by_contra hlt
  push_neg at hlt
  have hsm : (numChunks x cs + 1) * cs = numChunks x cs * cs + cs := Nat.succ_mul _ _
  have h2 : (numChunks x cs + 1) * cs ≤ x + cs - 1 := by omega
  have h3 : numChunks x cs + 1 ≤ (x + cs - 1) / cs := (Nat.le_div_iff_mul_le hcs).mpr h2
  unfold numChunks at h3
  omega

theorem pred_numChunks_mul_lt (x cs : Nat) (hx : 0 < x) (hcs : 0 < cs) :
    (numChunks x cs - 1) * cs < x := by
  rw [numChunks_eq_pred_div x cs hx hcs]
  have h2 : ((x - 1) / cs) * cs ≤ x - 1 := Nat.div_mul_le_self _ _
  simp only [Nat.add_sub_cancel]
  omega

theorem chunkAt_zero (fs cs s i : Nat) :
    chunkAt fs cs s i 0 =
      { index := i, start := s, endPos := min (s + cs) fs,
        chunkLen := min (s + cs) fs - s, uploaded := false } := by
  simp [chunkAt]

theorem chunkAt_succ (fs cs s i j : Nat) :
    chunkAt fs cs (s + cs) (i + 1) j = chunkAt fs cs s i (j + 1) := by
  have h1 : (j + 1) * cs = j * cs + cs := Nat.succ_mul j cs
  have h2 : (j + 1 + 1) * cs = (j + 1) * cs + cs := Nat.succ_mul (j + 1) cs
  have ha : s + cs + j * cs = s + (j + 1) * cs := by omega
  have hb : s + cs + (j + 1) * cs = s + (j + 1 + 1) * cs := by omega
  simp [chunkAt, ha, hb]
  omega

theorem createChunks_closed_aux (cs : Nat) (hcs : 0 < cs) :
    ∀ (N fs s i : Nat), fs - s ≤ N →
      createChunks fs cs s i =
        (List.range (numChunks (fs - s) cs)).map (chunkAt fs cs s i) := by
  intro N
  induction N with
  | zero =>
    intro fs s i h
    rw [createChunks_stop _ _ _ _ (by omega)]
    have h0 : fs - s = 0 := by omega
    rw [h0, numChunks_zero]
    simp
  | succ N ih =>
    intro fs s i h
    by_cases hs : s < fs
    · rw [createChunks_step _ _ _ _ hs hcs]
      have hse : s < min (s + cs) fs := by omega
      have hrec := ih fs (min (s + cs) fs) (i + 1) (by omega)
      rw [hrec]
      by_cases hcase : s + cs < fs
      · have he2 : min (s + cs) fs = s + cs := by omega
        have hx : fs - s = (fs - (s + cs)) + cs := by omega
        have hn : numChunks (fs - s) cs = numChunks (fs - (s + cs)) cs + 1 := by
          rw [hx, numChunks_add_right _ _ hcs]
        rw [he2, hn, List.range_succ_eq_map, List.map_cons, List.map_map]
        have hfun : chunkAt fs cs (s + cs) (i + 1) = chunkAt fs cs s i ∘ Nat.succ := by
          funext j
          exact chunkAt_succ fs cs s i j
        rw [hfun, chunkAt_zero, he2]
      · have he2 : min (s + cs) fs = fs := by omega
        have hn : numChunks (fs - s) cs = 1 :=
          numChunks_one _ _ (by omega) hcs (by omega)
        have h0 : fs - min (s + cs) fs = 0 := by omega
        rw [h0, numChunks_zero, hn]
        have hr1 : List.range 1 = [0] := rfl
        rw [hr1]
        simp [chunkAt_zero]
    · rw [createChunks_stop _ _ _ _ (by omega)]
      have h0 : fs - s = 0 := by omega
      rw [h0, numChunks_zero]
      simp

/-- Closed form of the partitioning loop: chunk `j` covers
`[j * chunkSize, min ((j+1) * chunkSize, fileSize))`, and there are
`ceil(fileSize / chunkSize)` chunks. -/
theorem initializeChunks_closed (fs cs : Nat) (hcs : 0 < cs) :
    initializeChunks fs cs =
      (List.range (numChunks fs cs)).map (chunkAt fs cs 0 0) := by
  have h := createChunks_closed_aux cs hcs (fs - 0) fs 0 0 (by omega)
  simpa using h

/-- Total byte length of a chunk list. -/
def sumLen (l : List UploadChunk) : Nat :=
  (l.map (fun c => c.chunkLen)).sum

theorem sumLen_nil : sumLen [] = 0 := rfl

theorem sumLen_cons (c : UploadChunk) (l : List UploadChunk) :
    sumLen (c :: l) = c.chunkLen + sumLen l := by
  simp [sumLen]

theorem sumLen_createChunks_aux (cs : Nat) (hcs : 0 < cs) :
    ∀ (N fs s i : Nat), fs - s ≤ N →
      sumLen (createChunks fs cs s i) = fs - s := by
  intro N
  induction N with
  | zero =>
    intro fs s i h
    rw [createChunks_stop _ _ _ _ (by omega), sumLen_nil]
    omega
  | succ N ih =>
    intro fs s i h
    by_cases hs : s < fs
    · rw [createChunks_step _ _ _ _ hs hcs, sumLen_cons,
        ih fs (min (s + cs) fs) (i + 1) (by omega)]
      show min (s + cs) fs - s + (fs - min (s + cs) fs) = fs - s
      omega
    · rw [createChunks_stop _ _ _ _ (by omega), sumLen_nil]
      omega

/-- The produced chunks tile the whole file: their lengths sum to
`fileSize`. -/
theorem sumLen_initializeChunks (fs cs : Nat) (hcs : 0 < cs) :
    sumLen (initializeChunks fs cs) = fs := by
  have h := sumLen_createChunks_aux cs hcs fs fs 0 0 (by omega)
  simpa [initializeChunks] using h

/-- Regardless of the chunk size, the produced chunks never exceed the file
size in total. -/
theorem sumLen_initializeChunks_le (fs cs : Nat) :
    sumLen (initializeChunks fs cs) ≤ fs := by
  rcases Nat.eq_zero_or_pos cs with h | h
  · subst h
    rw [initializeChunks, createChunks_stop _ _ _ _ (by omega), sumLen_nil]
    omega
  · rw [sumLen_initializeChunks fs cs h]

theorem createChunks_chunkLen_pos (fs cs : Nat) :
    ∀ (N s i : Nat), fs - s ≤ N →
      ∀ c ∈ createChunks fs cs s i, 1 ≤ c.chunkLen := by
  intro N
  induction N with
  | zero =>
    intro s i h c hc
    rw [createChunks_stop _ _ _ _ (by omega)] at hc
    simp at hc
  | succ N ih =>
    intro s i h c hc
    by_cases hs : s < fs ∧ 0 < cs
    · rw [createChunks_step _ _ _ _ hs.1 hs.2] at hc
      rcases List.mem_cons.mp hc with h1 | h1
      · subst h1
        show 1 ≤ min (s + cs) fs - s
        omega
      · exact ih (min (s + cs) fs) (i + 1) (by omega) c h1
    · rw [createChunks_stop _ _ _ _ hs] at hc
      simp at hc

/-- Every chunk carries at least one byte. -/
theorem initializeChunks_chunkLen_pos (fs cs : Nat) :
    ∀ c ∈ initializeChunks fs cs, 1 ≤ c.chunkLen :=
  createChunks_chunkLen_pos fs cs fs 0 0 (by omega)

/-- One network request issued by the controller: the session-init call to
`/api/cloudinary/init`, one per-chunk POST to `uploadUrl`, or the
completion call to `/api/cloudinary/complete`. -/
inductive NetEvent
  | sessionInit
  | chunkRequest (i : Nat)
  | completeRequest
deriving DecidableEq

/-- The body of a successful `/api/cloudinary/init` response. -/
structure InitData where
  uploadId : String
  uploadUrl : String
  uploadPreset : String
  cloudName : String
deriving DecidableEq

/-- The environment deciding every network response of a run:
`initResp = none` models a non-ok session-init response; `chunkOk i` tells
whether the transfer of chunk `i` gets a 2xx response; `elapsedAt i` is the
elapsed-seconds reading `(Date.now() - startTime) / 1000` taken after chunk
`i` succeeds; `completeResp = none` models a non-2xx completion response,
`completeResp = some u` a success whose `data.video?.url` is `u`. -/
structure Env where
  initResp : Option InitData
  chunkOk : Nat → Bool
  elapsedAt : Nat → Rat
  completeResp : Option (Option String)

/-- `UploadProgress.status` values. -/
inductive UploadStatus
  | idle
  | uploading
  | processing
  | completed
  | error
deriving DecidableEq

/-- The `UploadProgress` React state: byte totals are naturals, the derived
`percentage`, `speed` (bytes/sec) and `remaining` (seconds) are rationals. -/
structure UploadProgress where
  total : Nat
  uploaded : Nat
  percentage : Rat
  speed : Rat
  remaining : Rat
  chunks : List UploadChunk
  status : UploadStatus
  error : Option String
deriving DecidableEq

/-- The initial `uploadProgress` value of the component. -/
def initialUploadProgress : UploadProgress :=
  { total := 0, uploaded := 0, percentage := 0, speed := 0, remaining := 0,
    chunks := [], status := .idle, error := none }

/-- `VideoMetadata` extracted by the browser decoder (supplied by the
environment; decoding itself is outside the model). -/
structure VideoMetadata where
  duration : Option Rat
  width : Option Nat
  height : Option Nat
  size : Nat
  format : Option String
  thumbnail : Option String
deriving DecidableEq

/-- The whole React state of `EnhancedVideoUpload` that the claims touch:
form fields, settings, the selected file, the upload-session fields and the
progress record.  `open` is named `dialogOpen`. -/
structure ComponentState where
  dialogOpen : Bool
  videoFile : Option JsFile
  videoMetadata : Option VideoMetadata
  uploadProgress : UploadProgress
  uploadId : Option String
  uploadUrl : Option String
  uploadPreset : Option String
  cloudName : Option String
  title : String
  description : String
  position : Int
  tags : List String
  difficulty : String
  isPreview : Bool
  enableComments : Bool
  enableDownloads : Bool
  selectedQuality : String
  selectedFormat : String
  enableWatermark : Bool
  enableSubtitles : Bool
  privacy : String
deriving DecidableEq

/-- The component's initial state: every `useState` default, dialog
closed. -/
def defaultComponentState : ComponentState :=
  { dialogOpen := false
    videoFile := none
    videoMetadata := none
    uploadProgress := initialUploadProgress
    uploadId := none
    uploadUrl := none
    uploadPreset := none
    cloudName := none
    title := ""
    description := ""
    position := 0
    tags := []
    difficulty := "beginner"
    isPreview := false
    enableComments := true
    enableDownloads := false
    selectedQuality := "auto"
    selectedFormat := "mp4"
    enableWatermark := false
    enableSubtitles := false
    privacy := "public" }

/-- `resetForm`: every setter call of the source, in order.  It does not
touch `open`. -/
def resetForm (st : ComponentState) : ComponentState :=
  { st with
    videoFile := none
    videoMetadata := none
    title := ""
    description := ""
    position := 0
    tags := []
    difficulty := "beginner"
    isPreview := false
    enableComments := true
    enableDownloads := false
    selectedQuality := "auto"
    selectedFormat := "mp4"
    enableWatermark := false
    enableSubtitles := false
    privacy := "public"
    uploadProgress := initialUploadProgress
    uploadId := none
    uploadUrl := none
    uploadPreset := none
    cloudName := none }

/-- The Cancel button handler (and the dialog close action):
`onClick={() => setOpen(false)}`; nothing else runs. -/
def cancelDialog (st : ComponentState) : ComponentState :=
  { st with dialogOpen := false }

/-- `file.name.replace(/\.[^/.]+$/, '')`: drop a final dot-extension when
the extension is nonempty and contains neither a dot nor a slash. -/
def stripExt (name : String) : String :=
  let parts := splitOnChar '.' name.data
  match parts.getLast? with
  | none => name
  | some lastPart =>
    if 2 ≤ parts.length ∧ lastPart ≠ [] ∧ lastPart.contains '/' = false then
      String.mk (List.intercalate ['.'] parts.dropLast)
    else name

/-- `handleFileSelect`: validate, and only for a valid file store it, then
(on successful metadata decode, supplied by the environment) store the
metadata and default the title from the file name.  No network request is
made on this path; the returned event list is the (empty) network trace. -/
def handleFileSelect (maxFileSize : Nat) (allowedFormats : List String)
    (selected : Option JsFile) (metadataResult : Option VideoMetadata)
    (st : ComponentState) : ComponentState × List NetEvent :=
  match selected with
  | none => (st, [])
  | some file =>
    if !(validateFile maxFileSize allowedFormats file).valid then
      (st, [])
    else
      let st2 := { st with videoFile := some file }
      match metadataResult with
      | some md =>
        ({ st2 with videoMetadata := some md, title := stripExt file.name }, [])
      | none => (st2, [])

/-- `prev.chunks.map((c, index) => index === i ? { ...c, uploaded } : c)`:
replace the element at position `i` (if any) with its `uploaded` flag set;
all other elements are returned unchanged. -/
def markChunk : List UploadChunk → Nat → Bool → List UploadChunk
  | [], _, _ => []
  | c :: rest, 0, b => { c with uploaded := b } :: rest
  | c :: rest, Nat.succ i, b => c :: markChunk rest i b

/-- `uploadChunk`: the `if (!uploadUrl || !uploadPreset || !cloudName)`
guard throws before any request; otherwise the chunk POST is issued (one
`chunkRequest` event) and a non-2xx response throws
`Failed to upload chunk i`. -/
def uploadChunkStep (uploadUrl uploadPreset cloudName : Option String)
    (ok : Bool) (i : Nat) : List NetEvent × Option String :=
  if !(jsTruthyS uploadUrl) || !(jsTruthyS uploadPreset) || !(jsTruthyS cloudName) then
    ([], some "Upload not initialized")
  else if ok then
    ([NetEvent.chunkRequest i], none)
  else
    ([NetEvent.chunkRequest i], some ("Failed to upload chunk " ++ toString i))

/-- One `setUploadProgress` call of the transfer loop: its chunk position,
whether that iteration's transfer succeeded, and the stored progress
value. -/
structure ChunkReport where
  pos : Nat
  ok : Bool
  prog : UploadProgress
deriving DecidableEq

/-- Result of the chunk-transfer loop: final progress, network trace, the
sequence of progress stores, and the propagated exception if one was
(re)thrown. -/
structure GoResult where
  prog : UploadProgress
  events : List NetEvent
  reports : List ChunkReport
  thrown : Option String

/-- The `for` loop of `uploadChunks`, at position `i`, with accumulated
`uploadedBytes`: on success accumulate bytes, recompute `speed` and
`remaining`, store the updated progress (percentage `uploaded/total*100`),
and mark the chunk uploaded; on a failure with `enableResume` store the
chunk as not uploaded and continue with the next chunk; on a failure
without `enableResume` rethrow, ending the loop. -/
def uploadChunksGo (enableResume : Bool) (chunkOk : Nat → Bool)
    (elapsedAt : Nat → Rat) (uploadUrl uploadPreset cloudName : Option String) :
    List UploadChunk → Nat → Nat → UploadProgress → GoResult
  | [], _, _, prog => { prog := prog, events := [], reports := [], thrown := none }
  | c :: rest, i, uploadedBytes, prog =>
    match uploadChunkStep uploadUrl uploadPreset cloudName (chunkOk i) i with
    | (evs, none) =>
      let ub := uploadedBytes + c.chunkLen
      let speed := (ub : Rat) / elapsedAt i
      let remaining := ((prog.total : Rat) - (ub : Rat)) / speed
      let prog2 := { prog with
        uploaded := ub
        percentage := ((ub : Rat) / (prog.total : Rat)) * 100
        speed := speed
        remaining := remaining
        chunks := markChunk prog.chunks i true }
      let r := uploadChunksGo enableResume chunkOk elapsedAt uploadUrl uploadPreset
        cloudName rest (i + 1) ub prog2
      { prog := r.prog, events := evs ++ r.events,
        reports := { pos := i, ok := true, prog := prog2 } :: r.reports,
        thrown := r.thrown }
    | (evs, some msg) =>
      if enableResume then
        let prog2 := { prog with chunks := markChunk prog.chunks i false }
        let r := uploadChunksGo enableResume chunkOk elapsedAt uploadUrl uploadPreset
          cloudName rest (i + 1) uploadedBytes prog2
        { prog := r.prog, events := evs ++ r.events,
          reports := { pos := i, ok := false, prog := prog2 } :: r.reports,
          thrown := r.thrown }
      else
        { prog := prog, events := evs, reports := [], thrown := some msg }

/-- Result of one orchestration step acting on the component state. -/
structure StepResult where
  state : ComponentState
  events : List NetEvent
  thrown : Option String

/-- `initializeUpload`: guard on a selected file, the session-init request,
and on a successful response the session fields are bound and the chunk
list is created; the progress record gets `total`, `chunks` and status
`uploading`.  A non-ok response throws (the catch logs, toasts and
rethrows, leaving the state untouched). -/
def initializeUploadStep (initResp : Option InitData) (chunkSize : Nat)
    (st : ComponentState) : StepResult :=
  match st.videoFile with
  | none => { state := st, events := [], thrown := none }
  | some file =>
    match initResp with
    | none =>
      { state := st, events := [NetEvent.sessionInit],
        thrown := some "Failed to initialize upload" }
    | some d =>
      let chunks := createChunks file.size chunkSize 0 0
      { state := { st with
          uploadId := some d.uploadId
          uploadUrl := some d.uploadUrl
          uploadPreset := some d.uploadPreset
          cloudName := some d.cloudName
          uploadProgress := { st.uploadProgress with
            total := file.size, chunks := chunks, status := .uploading } }
        events := [NetEvent.sessionInit]
        thrown := none }

/-- Result of the `uploadChunks` phase. -/
structure ChunksStepResult where
  state : ComponentState
  events : List NetEvent
  reports : List ChunkReport
  thrown : Option String

/-- `uploadChunks`: returns at once on an empty chunk list
(`if (!uploadProgress.chunks.length) return`), otherwise runs the transfer
loop from position 0 with `uploadedBytes = 0`. -/
def uploadChunksStep (enableResume : Bool) (chunkOk : Nat → Bool)
    (elapsedAt : Nat → Rat) (st : ComponentState) : ChunksStepResult :=
  if st.uploadProgress.chunks.length = 0 then
    { state := st, events := [], reports := [], thrown := none }
  else
    let r := uploadChunksGo enableResume chunkOk elapsedAt st.uploadUrl
      st.uploadPreset st.cloudName st.uploadProgress.chunks 0 0 st.uploadProgress
    { state := { st with uploadProgress := r.prog }, events := r.events,
      reports := r.reports, thrown := r.thrown }

/-- Result of the completion phase: final state, trace, and the arguments
of every `onSuccess` invocation. -/
structure CompleteResult where
  state : ComponentState
  events : List NetEvent
  onSuccessCalls : List (Option String)

/-- `completeUpload`: the `if (!uploadId || !cloudName) return` guard, then
the completion request.  On 2xx: status `completed`, `onSuccess` invoked
with `data.video?.url`, `resetForm()`, `setOpen(false)`.  On non-2xx the
local catch sets status `error` (nothing is rethrown) and `onSuccess` is
not invoked. -/
def completeUploadStep (completeResp : Option (Option String))
    (st : ComponentState) : CompleteResult :=
  if !(jsTruthyS st.uploadId) || !(jsTruthyS st.cloudName) then
    { state := st, events := [], onSuccessCalls := [] }
  else
    match completeResp with
    | none =>
      { state := { st with uploadProgress := { st.uploadProgress with
            status := .error, error := some "Failed to complete upload" } }
        events := [NetEvent.completeRequest]
        onSuccessCalls := [] }
    | some videoUrl =>
      let st2 := { st with uploadProgress :=
        { st.uploadProgress with status := .completed } }
      let st3 := resetForm st2
      { state := { st3 with dialogOpen := false }
        events := [NetEvent.completeRequest]
        onSuccessCalls := [videoUrl] }

/-- Observable outcome of a whole `handleUpload` run. -/
structure RunResult where
  state : ComponentState
  events : List NetEvent
  reports : List ChunkReport
  onSuccessCalls : List (Option String)

/-- `handleUpload`: the two form guards (`!videoFile`, `!title.trim()`),
then initialize, transfer, complete in order; an exception from initialize
or from the transfer loop is caught here and turns into status `error`
with the exception's message, skipping every later phase. -/
def handleUpload (env : Env) (chunkSize : Nat) (enableResume : Bool)
    (st : ComponentState) : RunResult :=
  match st.videoFile with
  | none => { state := st, events := [], reports := [], onSuccessCalls := [] }
  | some _ =>
    if jsTrim st.title == "" then
      { state := st, events := [], reports := [], onSuccessCalls := [] }
    else
      let r1 := initializeUploadStep env.initResp chunkSize st
      match r1.thrown with
      | some msg =>
        { state := { r1.state with uploadProgress := { r1.state.uploadProgress with
              status := .error, error := some msg } }
          events := r1.events, reports := [], onSuccessCalls := [] }
      | none =>
        let r2 := uploadChunksStep enableResume env.chunkOk env.elapsedAt r1.state
        match r2.thrown with
        | some msg =>
          { state := { r2.state with uploadProgress := { r2.state.uploadProgress with
                status := .error, error := some msg } }
            events := r1.events ++ r2.events, reports := r2.reports,
            onSuccessCalls := [] }
        | none =>
          let r3 := completeUploadStep env.completeResp r2.state
          { state := r3.state, events := r1.events ++ r2.events ++ r3.events,
            reports := r2.reports, onSuccessCalls := r3.onSuccessCalls }

theorem initializeChunks_length (fs cs : Nat) (hcs : 0 < cs) :
    (initializeChunks fs cs).length = numChunks fs cs := by
  rw [initializeChunks_closed fs cs hcs]
  simp

theorem initializeChunks_get?_eq (fs cs : Nat) (hcs : 0 < cs) (j : Nat)
    (hj : j < numChunks fs cs) :
    (initializeChunks fs cs).get? j = some (chunkAt fs cs 0 0 j) := by
  rw [initializeChunks_closed fs cs hcs, List.get?_map, List.get?_range hj]
  rfl

theorem initializeChunks_get?_inv (fs cs : Nat) (hcs : 0 < cs) (j : Nat)
    (c : UploadChunk) (h : (initializeChunks fs cs).get? j = some c) :
    j < numChunks fs cs ∧ c = chunkAt fs cs 0 0 j := by
  by_cases hj : j < numChunks fs cs
  · refine ⟨hj, ?_⟩
    rw [initializeChunks_get?_eq fs cs hcs j hj] at h
    exact (Option.some_inj.mp h).symm
  · exfalso
    have hnone : (initializeChunks fs cs).get? j = none := by
      apply List.get?_eq_none.mpr
      rw [initializeChunks_length fs cs hcs]
      omega
    rw [hnone] at h
    exact Option.noConfusion h

theorem mul_lt_of_lt_numChunks (fs cs j : Nat) (hfs : 0 < fs) (hcs : 0 < cs)
    (hj : j < numChunks fs cs) : j * cs < fs :=
  calc j * cs ≤ (numChunks fs cs - 1) * cs := mul_le_mul_right' (by omega) cs
  _ < fs := pred_numChunks_mul_lt fs cs hfs hcs

theorem initializeChunks_12MiB :
    initializeChunks (12 * 1024 * 1024) (5 * 1024 * 1024) =
      [⟨0, 0, 5 * 1024 * 1024, 5 * 1024 * 1024, false⟩,
       ⟨1, 5 * 1024 * 1024, 10 * 1024 * 1024, 5 * 1024 * 1024, false⟩,
       ⟨2, 10 * 1024 * 1024, 12 * 1024 * 1024, 2 * 1024 * 1024, false⟩] := by
  rw [initializeChunks_closed _ _ (by norm_num)]
  have hn : numChunks (12 * 1024 * 1024) (5 * 1024 * 1024) = 3 := by
    norm_num [numChunks]
  rw [hn]
  decide

/-- C1: for every `fileSize > 0` and `chunkSize > 0`, `initializeUpload`
partitions the file into `ceil(fileSize/chunkSize)` chunks whose byte
ranges `[start, end)` are nonempty, contiguous, start at 0 and end at
`fileSize` (so they cover `[0, fileSize)` exactly once and their lengths
sum to `fileSize`); `chunks[i].index = i`, every chunk except the last has
length `chunkSize`, the last has length
`fileSize - chunkSize * (count - 1)`; and a 12 MiB file with a 5 MiB chunk
size yields exactly 3 chunks of sizes 5 MiB, 5 MiB, 2 MiB. -/
theorem claim_C1_chunk_partitioning (fs cs : Nat) (hfs : 0 < fs) (hcs : 0 < cs) :
    (initializeChunks fs cs).length = numChunks fs cs
    ∧ (∀ j c, (initializeChunks fs cs).get? j = some c →
        c.index = j ∧ c.start = j * cs ∧ c.endPos = min ((j + 1) * cs) fs
        ∧ c.chunkLen = c.endPos - c.start ∧ c.uploaded = false ∧ c.start < c.endPos)
    ∧ (∀ j c c2, (initializeChunks fs cs).get? j = some c →
        (initializeChunks fs cs).get? (j + 1) = some c2 → c2.start = c.endPos)
    ∧ (∀ c, (initializeChunks fs cs).get? 0 = some c → c.start = 0)
    ∧ (∀ j c, (initializeChunks fs cs).get? j = some c →
        j + 1 < (initializeChunks fs cs).length → c.chunkLen = cs)
    ∧ (∀ c, (initializeChunks fs cs).get? ((initializeChunks fs cs).length - 1) = some c →
        c.endPos = fs ∧ c.chunkLen = fs - cs * ((initializeChunks fs cs).length - 1))
    ∧ sumLen (initializeChunks fs cs) = fs
    ∧ initializeChunks (12 * 1024 * 1024) (5 * 1024 * 1024) =
        [⟨0, 0, 5 * 1024 * 1024, 5 * 1024 * 1024, false⟩,
         ⟨1, 5 * 1024 * 1024, 10 * 1024 * 1024, 5 * 1024 * 1024, false⟩,
         ⟨2, 10 * 1024 * 1024, 12 * 1024 * 1024, 2 * 1024 * 1024, false⟩] := by
  have hlen := initializeChunks_length fs cs hcs
  refine ⟨hlen, ?_, ?_, ?_, ?_, ?_, sumLen_initializeChunks fs cs hcs,
    initializeChunks_12MiB⟩
  · intro j c h
    obtain ⟨hj, hc⟩ := initializeChunks_get?_inv fs cs hcs j c h
    subst hc
    have h1 : (j + 1) * cs = j * cs + cs := Nat.succ_mul j cs
    have h2 : j * cs < fs := mul_lt_of_lt_numChunks fs cs j hfs hcs hj
    refine ⟨by show 0 + j = j; omega, by show 0 + j * cs = j * cs; omega, ?_, rfl, rfl, ?_⟩
    · show min (0 + (j + 1) * cs) fs = min ((j + 1) * cs) fs
      rw [Nat.zero_add]
    · show 0 + j * cs < min (0 + (j + 1) * cs) fs
      omega
  · intro j c c2 h h2
    obtain ⟨hj, hc⟩ := initializeChunks_get?_inv fs cs hcs j c h
    obtain ⟨hj2, hc2⟩ := initializeChunks_get?_inv fs cs hcs (j + 1) c2 h2
    subst hc
    subst hc2
    show 0 + (j + 1) * cs = min (0 + (j + 1) * cs) fs
    have h3 : (j + 1) * cs < fs := mul_lt_of_lt_numChunks fs cs (j + 1) hfs hcs hj2
    omega
  · intro c h
    obtain ⟨hj, hc⟩ := initializeChunks_get?_inv fs cs hcs 0 c h
    subst hc
    show 0 + 0 * cs = 0
    omega
  · intro j c h hlt
    obtain ⟨hj, hc⟩ := initializeChunks_get?_inv fs cs hcs j c h
    subst hc
    rw [hlen] at hlt
    have h3 : (j + 1) * cs < fs := mul_lt_of_lt_numChunks fs cs (j + 1) hfs hcs hlt
    have h1 : (j + 1) * cs = j * cs + cs := Nat.succ_mul j cs
    show min (0 + (j + 1) * cs) fs - (0 + j * cs) = cs
    omega
  · intro c h
    rw [hlen] at h
    obtain ⟨hj, hc⟩ := initializeChunks_get?_inv fs cs hcs (numChunks fs cs - 1) c h
    subst hc
    rw [hlen]
    have hn1 : 0 < numChunks fs cs := numChunks_pos fs cs hfs hcs
    have hfsle : fs ≤ numChunks fs cs * cs := le_numChunks_mul fs cs hcs
    have hsm : (numChunks fs cs - 1 + 1) * cs = numChunks fs cs * cs := by
      congr 1
      omega
    have hcomm : cs * (numChunks fs cs - 1) = (numChunks fs cs - 1) * cs :=
      Nat.mul_comm _ _
    constructor
    · show min (0 + (numChunks fs cs - 1 + 1) * cs) fs = fs
      omega
    · show min (0 + (numChunks fs cs - 1 + 1) * cs) fs -
        (0 + (numChunks fs cs - 1) * cs) = fs - cs * (numChunks fs cs - 1)
      omega

/-- Witness for C1 at the 12 MiB / 5 MiB scenario. -/
theorem claim_C1_chunk_partitioning_witness :
    (initializeChunks (12 * 1024 * 1024) (5 * 1024 * 1024)).length =
      numChunks (12 * 1024 * 1024) (5 * 1024 * 1024) :=
  (claim_C1_chunk_partitioning (12 * 1024 * 1024) (5 * 1024 * 1024)
    (by norm_num) (by norm_num)).1

/-- Counterexample for C4 as stated: a 1-byte file named `clip.mp4` whose
declared media type is `text/plain` satisfies the size bound and has its
lowercased extension in the allowed set, yet `validateFile` rejects it
(the source additionally requires `file.type.startsWith('video/')`). -/
theorem claim_C4_validator_pass_counterexample :
    (⟨"clip.mp4", 1, "text/plain"⟩ : JsFile).size ≤ DEFAULT_MAX_FILE_SIZE
    ∧ fileExtension "clip.mp4" = some "mp4"
    ∧ SUPPORTED_FORMATS.contains "mp4" = true
    ∧ (validateFile DEFAULT_MAX_FILE_SIZE SUPPORTED_FORMATS
        ⟨"clip.mp4", 1, "text/plain"⟩).valid = false := by
  decide

/-- C4 amended: a file passes `validateFile` when its size is within the
bound, its lowercased extension (the part after the last dot) is nonempty
and in the allowed set, and additionally its declared media type starts
with `video/`. -/
theorem claim_C4_validator_pass (maxFS : Nat) (allowed : List String)
    (file : JsFile) (ext : String)
    (hsize : file.size ≤ maxFS)
    (hext : fileExtension file.name = some ext)
    (hne : ext ≠ "")
    (hmem : allowed.contains ext = true)
    (htype : jsStartsWith "video/" file.type = true) :
    validateFile maxFS allowed file = { valid := true, error := none } := by
  unfold validateFile
  have hgt : ¬ (file.size > maxFS) := by omega
  rw [if_neg hgt, hext]
  have hmem2 : ext ∈ allowed := by simpa using hmem
  simp [hne, hmem2, htype]

/-- Witness for the amended C4: a well-formed video file passes. -/
theorem claim_C4_validator_pass_witness :
    validateFile DEFAULT_MAX_FILE_SIZE SUPPORTED_FORMATS
      ⟨"lesson.MP4", 100, "video/mp4"⟩ = { valid := true, error := none } :=
  claim_C4_validator_pass DEFAULT_MAX_FILE_SIZE SUPPORTED_FORMATS
    ⟨"lesson.MP4", 100, "video/mp4"⟩ "mp4"
    (by norm_num [DEFAULT_MAX_FILE_SIZE]) (by decide) (by decide)
    (by decide) (by decide)

theorem resetForm_eq (st : ComponentState) :
    resetForm st = { defaultComponentState with dialogOpen := st.dialogOpen } := rfl

theorem initializeUploadStep_ok (d : InitData) (cs : Nat) (st : ComponentState)
    (f : JsFile) (hf : st.videoFile = some f) :
    initializeUploadStep (some d) cs st =
      { state := { st with
          uploadId := some d.uploadId
          uploadUrl := some d.uploadUrl
          uploadPreset := some d.uploadPreset
          cloudName := some d.cloudName
          uploadProgress := { st.uploadProgress with
            total := f.size, chunks := createChunks f.size cs 0 0,
            status := .uploading } }
        events := [NetEvent.sessionInit], thrown := none } := by
  unfold initializeUploadStep
  rw [hf]

theorem initializeUploadStep_err (cs : Nat) (st : ComponentState)
    (f : JsFile) (hf : st.videoFile = some f) :
    initializeUploadStep none cs st =
      { state := st, events := [NetEvent.sessionInit],
        thrown := some "Failed to initialize upload" } := by
  unfold initializeUploadStep
  rw [hf]

theorem completeUploadStep_ok (u : Option String) (st : ComponentState)
    (h1 : jsTruthyS st.uploadId = true) (h2 : jsTruthyS st.cloudName = true) :
    completeUploadStep (some u) st =
      { state := defaultComponentState, events := [NetEvent.completeRequest],
        onSuccessCalls := [u] } := by
  unfold completeUploadStep
  rw [h1, h2]
  rfl

theorem completeUploadStep_err (st : ComponentState)
    (h1 : jsTruthyS st.uploadId = true) (h2 : jsTruthyS st.cloudName = true) :
    completeUploadStep none st =
      { state := { st with uploadProgress := { st.uploadProgress with
          status := .error, error := some "Failed to complete upload" } }
        events := [NetEvent.completeRequest], onSuccessCalls := [] } := by
  unfold completeUploadStep
  rw [h1, h2]
  rfl

theorem completeUploadStep_calls (resp : Option (Option String)) (st : ComponentState) :
    (completeUploadStep resp st).onSuccessCalls = []
    ∨ ∃ u, resp = some u ∧ (completeUploadStep resp st).onSuccessCalls = [u]
      ∧ (completeUploadStep resp st).events = [NetEvent.completeRequest] := by
  unfold completeUploadStep
  by_cases h : (!(jsTruthyS st.uploadId) || !(jsTruthyS st.cloudName)) = true
  · rw [if_pos h]
    left
    rfl
  · rw [if_neg h]
    cases resp with
    | none => left; rfl
    | some u => right; exact ⟨u, rfl, rfl, rfl⟩

/-- With resumability enabled, the transfer loop never rethrows. -/
theorem uploadChunksGo_resume_thrown (chunkOk : Nat → Bool) (elapsedAt : Nat → Rat)
    (uu up cn : Option String) :
    ∀ (rest : List UploadChunk) (i b : Nat) (prog : UploadProgress),
      (uploadChunksGo true chunkOk elapsedAt uu up cn rest i b prog).thrown = none := by
  intro rest
  induction rest with
  | nil => intro i b prog; rfl
  | cons c rest ih =>
    intro i b prog
    rw [uploadChunksGo]
    rcases h : uploadChunkStep uu up cn (chunkOk i) i with ⟨evs, thr⟩
    cases thr with
    | none => simp only []; exact ih (i + 1) _ _
    | some msg => simp only [if_pos rfl]; exact ih (i + 1) _ _

/-- The component state right after a successful `initializeUpload` with
response `d` for file `f`: session fields bound, chunk list created,
status `uploading`. -/
def initState (d : InitData) (cs : Nat) (f : JsFile) (st : ComponentState) :
    ComponentState :=
  { st with
    uploadId := some d.uploadId
    uploadUrl := some d.uploadUrl
    uploadPreset := some d.uploadPreset
    cloudName := some d.cloudName
    uploadProgress := { st.uploadProgress with
      total := f.size, chunks := createChunks f.size cs 0 0,
      status := .uploading } }

theorem initializeUploadStep_ok2 (d : InitData) (cs : Nat) (st : ComponentState)
    (f : JsFile) (hf : st.videoFile = some f) :
    initializeUploadStep (some d) cs st =
      { state := initState d cs f st, events := [NetEvent.sessionInit],
        thrown := none } := by
  unfold initializeUploadStep initState
  rw [hf]

theorem handleUpload_phases_done (env : Env) (cs : Nat) (er : Bool)
    (st : ComponentState) (f : JsFile) (d : InitData)
    (hf : st.videoFile = some f) (ht : ¬(jsTrim st.title = ""))
    (hi : env.initResp = some d)
    (hdone : (uploadChunksStep er env.chunkOk env.elapsedAt
      (initState d cs f st)).thrown = none) :
    handleUpload env cs er st =
      { state := (completeUploadStep env.completeResp
          (uploadChunksStep er env.chunkOk env.elapsedAt (initState d cs f st)).state).state
        events := [NetEvent.sessionInit]
          ++ (uploadChunksStep er env.chunkOk env.elapsedAt (initState d cs f st)).events
          ++ (completeUploadStep env.completeResp
              (uploadChunksStep er env.chunkOk env.elapsedAt (initState d cs f st)).state).events
        reports := (uploadChunksStep er env.chunkOk env.elapsedAt (initState d cs f st)).reports
        onSuccessCalls := (completeUploadStep env.completeResp
          (uploadChunksStep er env.chunkOk env.elapsedAt (initState d cs f st)).state).onSuccessCalls } := by
  unfold handleUpload
  rw [hf, hi, initializeUploadStep_ok2 d cs st f hf]
  simp only [hdone]
  simp [ht]

theorem handleUpload_phases_throw (env : Env) (cs : Nat) (er : Bool)
    (st : ComponentState) (f : JsFile) (d : InitData) (msg : String)
    (hf : st.videoFile = some f) (ht : ¬(jsTrim st.title = ""))
    (hi : env.initResp = some d)
    (hthrow : (uploadChunksStep er env.chunkOk env.elapsedAt
      (initState d cs f st)).thrown = some msg) :
    handleUpload env cs er st =
      { state := { (uploadChunksStep er env.chunkOk env.elapsedAt (initState d cs f st)).state with
          uploadProgress := { (uploadChunksStep er env.chunkOk env.elapsedAt
            (initState d cs f st)).state.uploadProgress with
            status := .error, error := some msg } }
        events := [NetEvent.sessionInit]
          ++ (uploadChunksStep er env.chunkOk env.elapsedAt (initState d cs f st)).events
        reports := (uploadChunksStep er env.chunkOk env.elapsedAt (initState d cs f st)).reports
        onSuccessCalls := [] } := by
  unfold handleUpload
  rw [hf, hi, initializeUploadStep_ok2 d cs st f hf]
  simp only [hthrow]
  simp [ht]

theorem handleUpload_init_err (env : Env) (cs : Nat) (er : Bool)
    (st : ComponentState) (f : JsFile)
    (hf : st.videoFile = some f) (ht : ¬(jsTrim st.title = ""))
    (hi : env.initResp = none) :
    handleUpload env cs er st =
      { state := { st with uploadProgress := { st.uploadProgress with
          status := .error, error := some "Failed to initialize upload" } }
        events := [NetEvent.sessionInit], reports := [], onSuccessCalls := [] } := by
  unfold handleUpload
  rw [hf, hi, initializeUploadStep_err cs st f hf]
  simp [ht, hf]

theorem handleUpload_noFile (env : Env) (cs : Nat) (er : Bool)
    (st : ComponentState) (hf : st.videoFile = none) :
    handleUpload env cs er st =
      { state := st, events := [], reports := [], onSuccessCalls := [] } := by
  unfold handleUpload
  rw [hf]

theorem handleUpload_noTitle (env : Env) (cs : Nat) (er : Bool)
    (st : ComponentState) (f : JsFile) (hf : st.videoFile = some f)
    (ht : jsTrim st.title = "") :
    handleUpload env cs er st =
      { state := st, events := [], reports := [], onSuccessCalls := [] } := by
  unfold handleUpload
  rw [hf]
  simp [ht]

theorem uploadChunksStep_thrown_resume (ck : Nat → Bool) (el : Nat → Rat)
    (st : ComponentState) : (uploadChunksStep true ck el st).thrown = none := by
  unfold uploadChunksStep
  split
  · rfl
  · exact uploadChunksGo_resume_thrown ck el _ _ _ _ 0 0 _

theorem uploadChunksStep_uploadId (er : Bool) (ck : Nat → Bool) (el : Nat → Rat)
    (st : ComponentState) :
    (uploadChunksStep er ck el st).state.uploadId = st.uploadId := by
  unfold uploadChunksStep
  split <;> rfl

theorem uploadChunksStep_cloudName (er : Bool) (ck : Nat → Bool) (el : Nat → Rat)
    (st : ComponentState) :
    (uploadChunksStep er ck el st).state.cloudName = st.cloudName := by
  unfold uploadChunksStep
  split <;> rfl

/-- Example state with user-entered data and the dialog open. -/
def exTitledState : ComponentState :=
  { defaultComponentState with title := "My video", dialogOpen := true }

/-- Counterexample for C9 as stated: the Cancel button handler only closes
the dialog; on a state holding the title `My video` the title is left
intact rather than reset to the default empty string. -/
theorem claim_C9_form_reset_counterexample :
    (cancelDialog exTitledState).dialogOpen = false
    ∧ (cancelDialog exTitledState).title = "My video"
    ∧ ¬((cancelDialog exTitledState).title = "") := by
  refine ⟨rfl, rfl, ?_⟩
  decide

/-- C9 amended: on successful completion of an upload the collector resets
fully to its defaults (empty title and description, position 0, no tags,
difficulty `beginner`, privacy `public`, quality `auto`, idle progress,
cleared file and session fields) and the dialog closes; explicit
cancellation, however, only closes the dialog and leaves every form field
unchanged. -/
theorem claim_C9_form_reset (env : Env) (cs : Nat) (st : ComponentState)
    (f : JsFile) (d : InitData) (u : Option String)
    (hf : st.videoFile = some f) (ht : ¬(jsTrim st.title = ""))
    (hi : env.initResp = some d) (h1 : d.uploadId ≠ "") (h2 : d.cloudName ≠ "")
    (hc : env.completeResp = some u) :
    (handleUpload env cs true st).state = defaultComponentState
    ∧ ∀ s2 : ComponentState, cancelDialog s2 = { s2 with dialogOpen := false } := by
  constructor
  · have hdone : (uploadChunksStep true env.chunkOk env.elapsedAt
        (initState d cs f st)).thrown = none :=
      uploadChunksStep_thrown_resume _ _ _
    rw [handleUpload_phases_done env cs true st f d hf ht hi hdone]
    have hid : (uploadChunksStep true env.chunkOk env.elapsedAt
        (initState d cs f st)).state.uploadId = some d.uploadId := by
      rw [uploadChunksStep_uploadId]
      rfl
    have hcn : (uploadChunksStep true env.chunkOk env.elapsedAt
        (initState d cs f st)).state.cloudName = some d.cloudName := by
      rw [uploadChunksStep_cloudName]
      rfl
    have ht1 : jsTruthyS ((uploadChunksStep true env.chunkOk env.elapsedAt
        (initState d cs f st)).state.uploadId) = true := by
      rw [hid]
      simp [jsTruthyS, h1]
    have ht2 : jsTruthyS ((uploadChunksStep true env.chunkOk env.elapsedAt
        (initState d cs f st)).state.cloudName) = true := by
      rw [hcn]
      simp [jsTruthyS, h2]
    rw [hc, completeUploadStep_ok u _ ht1 ht2]
  · intro s2
    rfl

/-- Shared concrete fixtures for witnesses. -/
def fileA : JsFile := ⟨"a.mp4", 1, "video/mp4"⟩

def dataA : InitData := ⟨"u1", "https://upload", "preset1", "cloud1"⟩

def stA : ComponentState :=
  { defaultComponentState with videoFile := some fileA, title := "T" }

def envA : Env :=
  { initResp := some dataA, chunkOk := fun _ => true,
    elapsedAt := fun _ => 1, completeResp := some (some "https://v") }

/-- Witness for the amended C9: a successful run from a filled-in state
ends in the default state. -/
theorem claim_C9_form_reset_witness :
    (handleUpload envA DEFAULT_CHUNK_SIZE true stA).state = defaultComponentState :=
  (claim_C9_form_reset envA DEFAULT_CHUNK_SIZE stA fileA dataA (some "https://v")
    rfl (by decide) rfl (by decide) (by decide) rfl).1

/-- C8: a file that fails validation is rejected by `handleFileSelect`
before anything happens: the state is unchanged, no network request is
made, and from a state with no selected file `handleUpload` returns at its
first guard without issuing any session-init, chunk or completion
request. -/
theorem claim_C8_validation_precedes_network (maxFS : Nat) (allowed : List String)
    (file : JsFile) (md : Option VideoMetadata) (st : ComponentState)
    (env : Env) (cs : Nat) (er : Bool)
    (hv : (validateFile maxFS allowed file).valid = false) :
    handleFileSelect maxFS allowed (some file) md st = (st, [])
    ∧ (st.videoFile = none →
        handleUpload env cs er st =
          { state := st, events := [], reports := [], onSuccessCalls := [] }) := by
  constructor
  · unfold handleFileSelect
    simp [hv]
  · intro hnone
    exact handleUpload_noFile env cs er st hnone

/-- A `.txt` file, rejected by the validator. -/
def fileTxt : JsFile := ⟨"notes.txt", 10, "text/plain"⟩

/-- Witness for C8: selecting `notes.txt` from the initial state changes
nothing, and uploading from the initial state emits no request. -/
theorem claim_C8_validation_precedes_network_witness :
    handleFileSelect DEFAULT_MAX_FILE_SIZE SUPPORTED_FORMATS (some fileTxt) none
      defaultComponentState = (defaultComponentState, [])
    ∧ handleUpload envA DEFAULT_CHUNK_SIZE true defaultComponentState =
        { state := defaultComponentState, events := [], reports := [],
          onSuccessCalls := [] } := by
  have h := claim_C8_validation_precedes_network DEFAULT_MAX_FILE_SIZE
    SUPPORTED_FORMATS fileTxt none defaultComponentState envA DEFAULT_CHUNK_SIZE
    true (by decide)
  exact ⟨h.1, h.2 rfl⟩

theorem uploadChunksStep_truthy (er : Bool) (ck : Nat → Bool) (el : Nat → Rat)
    (d : InitData) (cs : Nat) (f : JsFile) (st : ComponentState)
    (h1 : d.uploadId ≠ "") (h2 : d.cloudName ≠ "") :
    jsTruthyS ((uploadChunksStep er ck el (initState d cs f st)).state.uploadId) = true
    ∧ jsTruthyS ((uploadChunksStep er ck el (initState d cs f st)).state.cloudName) = true := by
  constructor
  · rw [uploadChunksStep_uploadId]
    show jsTruthyS (some d.uploadId) = true
    simp [jsTruthyS, h1]
  · rw [uploadChunksStep_cloudName]
    show jsTruthyS (some d.cloudName) = true
    simp [jsTruthyS, h2]

theorem handleUpload_calls (env : Env) (cs : Nat) (er : Bool) (st : ComponentState) :
    (handleUpload env cs er st).onSuccessCalls = []
    ∨ ∃ u, env.completeResp = some u
        ∧ (handleUpload env cs er st).onSuccessCalls = [u] := by
  cases hf : st.videoFile with
  | none =>
    left
    rw [handleUpload_noFile env cs er st hf]
  | some f =>
    by_cases ht : jsTrim st.title = ""
    · left
      rw [handleUpload_noTitle env cs er st f hf ht]
    · cases hi : env.initResp with
      | none =>
        left
        rw [handleUpload_init_err env cs er st f hf ht hi]
      | some d =>
        cases hth : (uploadChunksStep er env.chunkOk env.elapsedAt
            (initState d cs f st)).thrown with
        | some msg =>
          left
          rw [handleUpload_phases_throw env cs er st f d msg hf ht hi hth]
        | none =>
          rw [handleUpload_phases_done env cs er st f d hf ht hi hth]
          rcases completeUploadStep_calls env.completeResp
            (uploadChunksStep er env.chunkOk env.elapsedAt (initState d cs f st)).state
            with h | ⟨u, hu, hcalls, _⟩
          · left
            exact h
          · right
            exact ⟨u, hu, hcalls⟩

/-- C3: `onSuccess` is invoked at most once and only when the completion
handshake succeeded, receiving the reported video URL; and when the
completion call returns non-2xx the job transitions to `error` (with the
completion failure message) and `onSuccess` is not invoked. -/
theorem claim_C3_completion_outcome :
    (∀ (env : Env) (cs : Nat) (er : Bool) (st : ComponentState),
      (handleUpload env cs er st).onSuccessCalls.length ≤ 1
      ∧ (∀ u, (handleUpload env cs er st).onSuccessCalls = [u] →
          env.completeResp = some u)
      ∧ (env.completeResp = none →
          (handleUpload env cs er st).onSuccessCalls = []))
    ∧ (∀ (env : Env) (cs : Nat) (st : ComponentState) (f : JsFile) (d : InitData),
        st.videoFile = some f → ¬(jsTrim st.title = "") → env.initResp = some d →
        d.uploadId ≠ "" → d.cloudName ≠ "" → env.completeResp = none →
        (handleUpload env cs true st).state.uploadProgress.status = .error
        ∧ (handleUpload env cs true st).onSuccessCalls = []
        ∧ (handleUpload env cs true st).state.uploadProgress.error
            = some "Failed to complete upload") := by
  constructor
  · intro env cs er st
    rcases handleUpload_calls env cs er st with h | ⟨u, hu, hcalls⟩
    · rw [h]
      refine ⟨by simp, by intro u hu2; simp at hu2, fun _ => rfl⟩
    · rw [hcalls]
      refine ⟨by simp, ?_, ?_⟩
      · intro u2 hu2
        have : u = u2 := by simpa using hu2
        rw [← this]
        exact hu
      · intro hnone
        rw [hnone] at hu
        exact Option.noConfusion hu
  · intro env cs st f d hf ht hi h1 h2 hnone
    have hdone : (uploadChunksStep true env.chunkOk env.elapsedAt
        (initState d cs f st)).thrown = none :=
      uploadChunksStep_thrown_resume _ _ _
    rw [handleUpload_phases_done env cs true st f d hf ht hi hdone]
    obtain ⟨ht1, ht2⟩ := uploadChunksStep_truthy true env.chunkOk env.elapsedAt
      d cs f st h1 h2
    rw [hnone, completeUploadStep_err _ ht1 ht2]
    exact ⟨rfl, rfl, rfl⟩

/-- Environment whose completion handshake fails. -/
def envC3 : Env :=
  { initResp := some dataA, chunkOk := fun _ => true,
    elapsedAt := fun _ => 1, completeResp := none }

/-- Witness for C3: a run whose completion returns non-2xx ends in `error`
with no `onSuccess` call. -/
theorem claim_C3_completion_outcome_witness :
    (handleUpload envC3 DEFAULT_CHUNK_SIZE true stA).state.uploadProgress.status
      = UploadStatus.error
    ∧ (handleUpload envC3 DEFAULT_CHUNK_SIZE true stA).onSuccessCalls = [] := by
  have h := claim_C3_completion_outcome.2 envC3 DEFAULT_CHUNK_SIZE stA fileA dataA
    rfl (by decide) rfl (by decide) (by decide) rfl
  exact ⟨h.1, h.2.1⟩

theorem uploadChunksStep_empty (er : Bool) (ck : Nat → Bool) (el : Nat → Rat)
    (st : ComponentState) (h : st.uploadProgress.chunks = []) :
    uploadChunksStep er ck el st =
      { state := st, events := [], reports := [], thrown := none } := by
  unfold uploadChunksStep
  rw [h]
  rfl

theorem completeUploadStep_events (resp : Option (Option String))
    (st : ComponentState)
    (h1 : jsTruthyS st.uploadId = true) (h2 : jsTruthyS st.cloudName = true) :
    (completeUploadStep resp st).events = [NetEvent.completeRequest] := by
  unfold completeUploadStep
  rw [h1, h2]
  cases resp <;> rfl

/-- C10: for a zero-size file the partitioning loop produces no chunks, the
transfer phase returns at once (no chunk request, no progress store, the
percentage untouched), and the orchestrator still issues the completion
handshake; a failed handshake leaves the percentage unchanged and the job
in `error`, a successful one resets the state. -/
theorem claim_C10_zero_size (env : Env) (cs : Nat) (er : Bool)
    (st : ComponentState) (f : JsFile) (d : InitData)
    (hf : st.videoFile = some f) (hz : f.size = 0)
    (ht : ¬(jsTrim st.title = "")) (hi : env.initResp = some d)
    (h1 : d.uploadId ≠ "") (h2 : d.cloudName ≠ "") :
    initializeChunks f.size cs = []
    ∧ (handleUpload env cs er st).reports = []
    ∧ (handleUpload env cs er st).events =
        [NetEvent.sessionInit, NetEvent.completeRequest]
    ∧ (env.completeResp = none →
        (handleUpload env cs er st).state.uploadProgress.percentage
          = st.uploadProgress.percentage
        ∧ (handleUpload env cs er st).state.uploadProgress.status = .error)
    ∧ (∀ u, env.completeResp = some u →
        (handleUpload env cs er st).state = defaultComponentState) := by
  have hempty : initializeChunks f.size cs = [] := by
    rw [hz]
    exact createChunks_stop _ _ _ _ (by omega)
  have hchunks : (initState d cs f st).uploadProgress.chunks = [] := hempty
  have hstep : uploadChunksStep er env.chunkOk env.elapsedAt (initState d cs f st) =
      { state := initState d cs f st, events := [], reports := [], thrown := none } :=
    uploadChunksStep_empty _ _ _ _ hchunks
  have hdone : (uploadChunksStep er env.chunkOk env.elapsedAt
      (initState d cs f st)).thrown = none := by
    rw [hstep]
  have ht1 : jsTruthyS ((initState d cs f st).uploadId) = true := by
    show jsTruthyS (some d.uploadId) = true
    simp [jsTruthyS, h1]
  have ht2 : jsTruthyS ((initState d cs f st).cloudName) = true := by
    show jsTruthyS (some d.cloudName) = true
    simp [jsTruthyS, h2]
  rw [handleUpload_phases_done env cs er st f d hf ht hi hdone, hstep]
  refine ⟨hempty, rfl, ?_, ?_, ?_⟩
  · rw [completeUploadStep_events env.completeResp _ ht1 ht2]
    rfl
  · intro hnone
    rw [hnone, completeUploadStep_err _ ht1 ht2]
    exact ⟨rfl, rfl⟩
  · intro u hu
    rw [hu, completeUploadStep_ok u _ ht1 ht2]

/-- A zero-byte video file and a state that has selected it. -/
def fileZ : JsFile := ⟨"z.mp4", 0, "video/mp4"⟩

def stZ : ComponentState :=
  { defaultComponentState with videoFile := some fileZ, title := "T" }

/-- Witness for C10: the zero-size run issues exactly the session-init and
completion requests and sends no chunk. -/
theorem claim_C10_zero_size_witness :
    (handleUpload envA DEFAULT_CHUNK_SIZE true stZ).events =
      [NetEvent.sessionInit, NetEvent.completeRequest] :=
  (claim_C10_zero_size envA DEFAULT_CHUNK_SIZE true stZ fileZ dataA rfl rfl
    (by decide) rfl (by decide) (by decide)).2.2.1

theorem markChunk_length :
    ∀ (l : List UploadChunk) (i : Nat) (b : Bool),
      (markChunk l i b).length = l.length := by
  intro l
  induction l with
  | nil => intro i b; rfl
  | cons c rest ih =>
    intro i b
    cases i with
    | zero => rfl
    | succ i => simp [markChunk, ih i b]

theorem markChunk_get? :
    ∀ (l : List UploadChunk) (i j : Nat) (b : Bool),
      (markChunk l i b).get? j =
        if j = i then (l.get? j).map (fun c => { c with uploaded := b })
        else l.get? j := by
  intro l
  induction l with
  | nil =>
    intro i j b
    simp [markChunk]
  | cons c rest ih =>
    intro i j b
    cases i with
    | zero =>
      cases j with
      | zero => simp [markChunk]
      | succ j => simp [markChunk]
    | succ i =>
      cases j with
      | zero => simp [markChunk]
      | succ j =>
        simp only [markChunk, List.get?_cons_succ, ih i j b]
        by_cases h : j = i
        · simp [h]
        · simp [h, fun hc => h (Nat.succ_injective hc)]

theorem uploadChunkStep_truthy (uu up cn : Option String)
    (huu : jsTruthyS uu = true) (hup : jsTruthyS up = true)
    (hcn : jsTruthyS cn = true) (ok : Bool) (i : Nat) :
    uploadChunkStep uu up cn ok i =
      ([NetEvent.chunkRequest i],
        if ok then none else some ("Failed to upload chunk " ++ toString i)) := by
  unfold uploadChunkStep
  rw [huu, hup, hcn]
  cases ok <;> rfl

theorem uploadChunksGo_resume_events (ck : Nat → Bool) (el : Nat → Rat)
    (uu up cn : Option String)
    (huu : jsTruthyS uu = true) (hup : jsTruthyS up = true)
    (hcn : jsTruthyS cn = true) :
    ∀ (rest : List UploadChunk) (i b : Nat) (prog : UploadProgress),
      (uploadChunksGo true ck el uu up cn rest i b prog).events
        = (List.range' i rest.length).map NetEvent.chunkRequest := by
  intro rest
  induction rest with
  | nil => intro i b prog; rfl
  | cons c rest ih =>
    intro i b prog
    rw [uploadChunksGo, uploadChunkStep_truthy uu up cn huu hup hcn (ck i) i]
    cases hok : ck i <;> simp [ih, List.range']

theorem uploadChunksGo_chunks_get?_lt (er : Bool) (ck : Nat → Bool) (el : Nat → Rat)
    (uu up cn : Option String) :
    ∀ (rest : List UploadChunk) (i b : Nat) (prog : UploadProgress) (j : Nat),
      j < i →
      (uploadChunksGo er ck el uu up cn rest i b prog).prog.chunks.get? j
        = prog.chunks.get? j := by
  intro rest
  induction rest with
  | nil => intro i b prog j hj; rfl
  | cons c rest ih =>
    intro i b prog j hj
    rw [uploadChunksGo]
    rcases h : uploadChunkStep uu up cn (ck i) i with ⟨evs, thr⟩
    cases thr with
    | none =>
      show (uploadChunksGo er ck el uu up cn rest (i + 1) _ _).prog.chunks.get? j = _
      rw [ih (i + 1) _ _ j (by omega)]
      show (markChunk prog.chunks i true).get? j = prog.chunks.get? j
      rw [markChunk_get?]
      simp [Nat.ne_of_lt hj]
    | some msg =>
      by_cases her : er = true
      · subst her
        simp only [if_pos rfl]
        show (uploadChunksGo true ck el uu up cn rest (i + 1) _ _).prog.chunks.get? j = _
        rw [ih (i + 1) _ _ j (by omega)]
        show (markChunk prog.chunks i false).get? j = prog.chunks.get? j
        rw [markChunk_get?]
        simp [Nat.ne_of_lt hj]
      · have her2 : er = false := by
          cases er
          · rfl
          · exact absurd rfl her
        subst her2
        rfl

theorem uploadChunksGo_resume_failed_get? (ck : Nat → Bool) (el : Nat → Rat)
    (uu up cn : Option String) :
    ∀ (rest : List UploadChunk) (i b : Nat) (prog : UploadProgress) (j : Nat),
      ck j = false → i ≤ j → j < i + rest.length →
      (uploadChunksGo true ck el uu up cn rest i b prog).prog.chunks.get? j
        = (prog.chunks.get? j).map (fun c => { c with uploaded := false }) := by
  intro rest
  induction rest with
  | nil =>
    intro i b prog j hck h1 h2
    exfalso
    simp at h2
    omega
  | cons c rest ih =>
    intro i b prog j hck h1 h2
    rw [uploadChunksGo]
    rcases h : uploadChunkStep uu up cn (ck i) i with ⟨evs, thr⟩
    by_cases hij : j = i
    · subst hij
      -- this chunk fails: the guard threw or the response was not ok, since
      -- a success would need ck j = true when the urls are truthy; handle
      -- both shapes of uploadChunkStep directly
      cases thr with
      | none =>
        -- uploadChunkStep returned no exception: impossible unless ck j = true
        exfalso
        unfold uploadChunkStep at h
        by_cases hg : (!(jsTruthyS uu) || !(jsTruthyS up) || !(jsTruthyS cn)) = true
        · rw [if_pos hg] at h
          exact Option.noConfusion (congrArg Prod.snd h)
        · rw [if_neg hg, hck] at h
          simp at h
      | some msg =>
        simp only [if_pos rfl]
        show (uploadChunksGo true ck el uu up cn rest (j + 1) _ _).prog.chunks.get? j = _
        rw [uploadChunksGo_chunks_get?_lt true ck el uu up cn rest (j + 1) _ _ j (by omega)]
        show (markChunk prog.chunks j false).get? j = _
        rw [markChunk_get?]
        simp
    · have hj2 : i + 1 ≤ j := by omega
      cases thr with
      | none =>
        show (uploadChunksGo true ck el uu up cn rest (i + 1) _ _).prog.chunks.get? j = _
        rw [ih (i + 1) _ _ j hck hj2 (by simp at h2 ⊢; omega)]
        show ((markChunk prog.chunks i true).get? j).map _ = _
        rw [markChunk_get?]
        simp [hij]
      | some msg =>
        simp only [if_pos rfl]
        show (uploadChunksGo true ck el uu up cn rest (i + 1) _ _).prog.chunks.get? j = _
        rw [ih (i + 1) _ _ j hck hj2 (by simp at h2 ⊢; omega)]
        show ((markChunk prog.chunks i false).get? j).map _ = _
        rw [markChunk_get?]
        simp [hij]

theorem uploadChunksGo_noresume_firstfail (ck : Nat → Bool) (el : Nat → Rat)
    (uu up cn : Option String)
    (huu : jsTruthyS uu = true) (hup : jsTruthyS up = true)
    (hcn : jsTruthyS cn = true) (f : Nat) (hfail : ck f = false) :
    ∀ (rest : List UploadChunk) (i b : Nat) (prog : UploadProgress),
      (∀ j, i ≤ j → j < f → ck j = true) → i ≤ f → f < i + rest.length →
      (uploadChunksGo false ck el uu up cn rest i b prog).events
        = (List.range' i (f + 1 - i)).map NetEvent.chunkRequest
      ∧ (uploadChunksGo false ck el uu up cn rest i b prog).thrown
        = some ("Failed to upload chunk " ++ toString f) := by
  intro rest
  induction rest with
  | nil =>
    intro i b prog hok h1 h2
    exfalso
    simp at h2
    omega
  | cons c rest ih =>
    intro i b prog hok h1 h2
    rw [uploadChunksGo, uploadChunkStep_truthy uu up cn huu hup hcn (ck i) i]
    by_cases hif : i = f
    · subst hif
      rw [hfail]
      constructor
      · show [NetEvent.chunkRequest i] = _
        have harith : i + 1 - i = 1 := by omega
        rw [harith]
        rfl
      · rfl
    · have hlt : i < f := by omega
      have hoki : ck i = true := hok i (le_refl i) hlt
      rw [hoki]
      have hok2 : ∀ j, i + 1 ≤ j → j < f → ck j = true :=
        fun j hj1 hj2 => hok j (by omega) hj2
      have hb2 : f < i + 1 + rest.length := by
        simp at h2
        omega
      constructor
      · show NetEvent.chunkRequest i ::
            (uploadChunksGo false ck el uu up cn rest (i + 1) (b + c.chunkLen) _).events
          = (List.range' i (f + 1 - i)).map NetEvent.chunkRequest
        have harith : f + 1 - i = (f + 1 - (i + 1)) + 1 := by omega
        rw [harith]
        exact congrArg (NetEvent.chunkRequest i :: ·)
          (ih (i + 1) (b + c.chunkLen) _ hok2 (by omega) hb2).1
      · show (uploadChunksGo false ck el uu up cn rest (i + 1) (b + c.chunkLen) _).thrown
          = some ("Failed to upload chunk " ++ toString f)
        exact (ih (i + 1) (b + c.chunkLen) _ hok2 (by omega) hb2).2

theorem uploadChunksStep_nonempty (er : Bool) (ck : Nat → Bool) (el : Nat → Rat)
    (st : ComponentState) (h : ¬(st.uploadProgress.chunks.length = 0)) :
    uploadChunksStep er ck el st =
      { state := { st with uploadProgress := (uploadChunksGo er ck el st.uploadUrl
          st.uploadPreset st.cloudName st.uploadProgress.chunks 0 0
          st.uploadProgress).prog }
        events := (uploadChunksGo er ck el st.uploadUrl st.uploadPreset st.cloudName
          st.uploadProgress.chunks 0 0 st.uploadProgress).events
        reports := (uploadChunksGo er ck el st.uploadUrl st.uploadPreset st.cloudName
          st.uploadProgress.chunks 0 0 st.uploadProgress).reports
        thrown := (uploadChunksGo er ck el st.uploadUrl st.uploadPreset st.cloudName
          st.uploadProgress.chunks 0 0 st.uploadProgress).thrown } := by
  unfold uploadChunksStep
  rw [if_neg h]

/-- C2: on a chunk transfer returning non-2xx, with resumability enabled
the loop stores the chunk with `uploaded = false` and moves on to the next
chunk, never retrying (every chunk position is requested exactly once, in
order, and nothing is rethrown); with resumability disabled the first
failing chunk `fidx` aborts the loop (requests stop at `fidx`), the job
transitions to `error`, no completion request is issued and `onSuccess` is
never invoked. -/
theorem claim_C2_chunk_failure_policy :
    (∀ (ck : Nat → Bool) (el : Nat → Rat) (uu up cn : Option String),
      jsTruthyS uu = true → jsTruthyS up = true → jsTruthyS cn = true →
      ∀ (rest : List UploadChunk) (b : Nat) (prog : UploadProgress),
        (uploadChunksGo true ck el uu up cn rest 0 b prog).thrown = none
        ∧ (uploadChunksGo true ck el uu up cn rest 0 b prog).events
            = (List.range rest.length).map NetEvent.chunkRequest
        ∧ (∀ j c0, ck j = false → j < rest.length → prog.chunks.get? j = some c0 →
            (uploadChunksGo true ck el uu up cn rest 0 b prog).prog.chunks.get? j
              = some { c0 with uploaded := false }))
    ∧ (∀ (env : Env) (cs : Nat) (st : ComponentState) (f : JsFile) (d : InitData)
        (fidx : Nat),
        st.videoFile = some f → ¬(jsTrim st.title = "") → env.initResp = some d →
        d.uploadUrl ≠ "" → d.uploadPreset ≠ "" → d.cloudName ≠ "" →
        env.chunkOk fidx = false → (∀ j, j < fidx → env.chunkOk j = true) →
        fidx < (createChunks f.size cs 0 0).length →
        (handleUpload env cs false st).state.uploadProgress.status = .error
        ∧ (handleUpload env cs false st).events
            = NetEvent.sessionInit :: (List.range (fidx + 1)).map NetEvent.chunkRequest
        ∧ (handleUpload env cs false st).onSuccessCalls = []) := by
  constructor
  · intro ck el uu up cn huu hup hcn rest b prog
    refine ⟨uploadChunksGo_resume_thrown ck el uu up cn rest 0 b prog, ?_, ?_⟩
    · rw [uploadChunksGo_resume_events ck el uu up cn huu hup hcn rest 0 b prog,
        List.range_eq_range']
    · intro j c0 hck hj hc0
      rw [uploadChunksGo_resume_failed_get? ck el uu up cn rest 0 b prog j hck
        (by omega) (by omega), hc0]
      rfl
  · intro env cs st f d fidx hf ht hi hdu hdp hdc hfail hbefore hflen
    have huu : jsTruthyS ((initState d cs f st).uploadUrl) = true := by
      show jsTruthyS (some d.uploadUrl) = true
      simp [jsTruthyS, hdu]
    have hup : jsTruthyS ((initState d cs f st).uploadPreset) = true := by
      show jsTruthyS (some d.uploadPreset) = true
      simp [jsTruthyS, hdp]
    have hcn : jsTruthyS ((initState d cs f st).cloudName) = true := by
      show jsTruthyS (some d.cloudName) = true
      simp [jsTruthyS, hdc]
    have hne : ¬((initState d cs f st).uploadProgress.chunks.length = 0) := by
      show ¬((createChunks f.size cs 0 0).length = 0)
      omega
    have hff := uploadChunksGo_noresume_firstfail env.chunkOk env.elapsedAt
      (initState d cs f st).uploadUrl (initState d cs f st).uploadPreset
      (initState d cs f st).cloudName huu hup hcn fidx hfail
      (initState d cs f st).uploadProgress.chunks 0 0
      (initState d cs f st).uploadProgress
      (fun j _ hj2 => hbefore j hj2) (by omega)
      (by show fidx < 0 + (createChunks f.size cs 0 0).length; omega)
    have hstep := uploadChunksStep_nonempty false env.chunkOk env.elapsedAt
      (initState d cs f st) hne
    have hthrown : (uploadChunksStep false env.chunkOk env.elapsedAt
        (initState d cs f st)).thrown
          = some ("Failed to upload chunk " ++ toString fidx) := by
      rw [hstep]
      exact hff.2
    rw [handleUpload_phases_throw env cs false st f d
      ("Failed to upload chunk " ++ toString fidx) hf ht hi hthrown]
    refine ⟨rfl, ?_, rfl⟩
    show NetEvent.sessionInit :: (uploadChunksStep false env.chunkOk env.elapsedAt
        (initState d cs f st)).events = _
    rw [hstep]
    show NetEvent.sessionInit :: (uploadChunksGo false env.chunkOk env.elapsedAt
        (initState d cs f st).uploadUrl (initState d cs f st).uploadPreset
        (initState d cs f st).cloudName (initState d cs f st).uploadProgress.chunks
        0 0 (initState d cs f st).uploadProgress).events = _
    rw [hff.1]
    have harith : fidx + 1 - 0 = fidx + 1 := by omega
    rw [harith, List.range_eq_range']

/-- A concrete two-chunk job for witnesses. -/
def chunksTwo : List UploadChunk := [⟨0, 0, 1, 1, false⟩, ⟨1, 1, 2, 1, false⟩]

def progTwo : UploadProgress :=
  { initialUploadProgress with
    total := 2
    chunks := chunksTwo
    status := .uploading }

/-- Environment in which every chunk transfer fails. -/
def envFail : Env :=
  { initResp := some dataA, chunkOk := fun _ => false,
    elapsedAt := fun _ => 1, completeResp := none }

/-- Witness for C2: with resume every failure is tolerated (chunk 0 left
not uploaded, nothing thrown); without resume the first failure puts the
job in `error`. -/
theorem claim_C2_chunk_failure_policy_witness :
    ((uploadChunksGo true (fun _ => false) (fun _ => 1) (some "u") (some "p")
        (some "c") chunksTwo 0 0 progTwo).thrown = none
      ∧ (uploadChunksGo true (fun _ => false) (fun _ => 1) (some "u") (some "p")
          (some "c") chunksTwo 0 0 progTwo).prog.chunks.get? 0
            = some ⟨0, 0, 1, 1, false⟩)
    ∧ (handleUpload envFail 1 false stA).state.uploadProgress.status
        = UploadStatus.error := by
  have hA := claim_C2_chunk_failure_policy.1 (fun _ => false) (fun _ => 1)
    (some "u") (some "p") (some "c") (by decide) (by decide) (by decide)
    chunksTwo 0 progTwo
  have hB := claim_C2_chunk_failure_policy.2 envFail 1 stA fileA dataA 0
    rfl (by decide) rfl (by decide) (by decide) (by decide) rfl
    (fun j hj => absurd hj (Nat.not_lt_zero j))
    (by
      show (0 : Nat) < (createChunks fileA.size 1 0 0).length
      have he : createChunks fileA.size 1 0 0 = initializeChunks 1 1 := rfl
      rw [he, initializeChunks_length 1 1 (by norm_num)]
      norm_num [numChunks])
  refine ⟨⟨hA.1, ?_⟩, hB.1⟩
  exact hA.2.2 0 ⟨0, 0, 1, 1, false⟩ rfl (by decide) rfl

/-- The progress value stored by the success branch of the transfer loop. -/
def successProg (el : Nat → Rat) (c : UploadChunk) (i b : Nat)
    (prog : UploadProgress) : UploadProgress :=
  { prog with
    uploaded := b + c.chunkLen
    percentage := (((b + c.chunkLen : Nat) : Rat) / (prog.total : Rat)) * 100
    speed := ((b + c.chunkLen : Nat) : Rat) / el i
    remaining := ((prog.total : Rat) - ((b + c.chunkLen : Nat) : Rat))
      / (((b + c.chunkLen : Nat) : Rat) / el i)
    chunks := markChunk prog.chunks i true }

/-- The progress value stored by the resume branch on a failed chunk. -/
def failProg (i : Nat) (prog : UploadProgress) : UploadProgress :=
  { prog with chunks := markChunk prog.chunks i false }

theorem uploadChunksGo_cons_ok (er : Bool) (ck : Nat → Bool) (el : Nat → Rat)
    (uu up cn : Option String) (c : UploadChunk) (rest : List UploadChunk)
    (i b : Nat) (prog : UploadProgress) (evs : List NetEvent)
    (h : uploadChunkStep uu up cn (ck i) i = (evs, none)) :
    uploadChunksGo er ck el uu up cn (c :: rest) i b prog =
      { prog := (uploadChunksGo er ck el uu up cn rest (i + 1) (b + c.chunkLen)
          (successProg el c i b prog)).prog
        events := evs ++ (uploadChunksGo er ck el uu up cn rest (i + 1)
          (b + c.chunkLen) (successProg el c i b prog)).events
        reports := { pos := i, ok := true, prog := successProg el c i b prog }
          :: (uploadChunksGo er ck el uu up cn rest (i + 1) (b + c.chunkLen)
            (successProg el c i b prog)).reports
        thrown := (uploadChunksGo er ck el uu up cn rest (i + 1) (b + c.chunkLen)
          (successProg el c i b prog)).thrown } := by
  rw [uploadChunksGo, h]
  rfl

theorem uploadChunksGo_cons_fail_resume (ck : Nat → Bool) (el : Nat → Rat)
    (uu up cn : Option String) (c : UploadChunk) (rest : List UploadChunk)
    (i b : Nat) (prog : UploadProgress) (evs : List NetEvent) (msg : String)
    (h : uploadChunkStep uu up cn (ck i) i = (evs, some msg)) :
    uploadChunksGo true ck el uu up cn (c :: rest) i b prog =
      { prog := (uploadChunksGo true ck el uu up cn rest (i + 1) b
          (failProg i prog)).prog
        events := evs ++ (uploadChunksGo true ck el uu up cn rest (i + 1) b
          (failProg i prog)).events
        reports := { pos := i, ok := false, prog := failProg i prog }
          :: (uploadChunksGo true ck el uu up cn rest (i + 1) b
            (failProg i prog)).reports
        thrown := (uploadChunksGo true ck el uu up cn rest (i + 1) b
          (failProg i prog)).thrown } := by
  rw [uploadChunksGo, h]
  rfl

theorem uploadChunksGo_cons_fail_stop (ck : Nat → Bool) (el : Nat → Rat)
    (uu up cn : Option String) (c : UploadChunk) (rest : List UploadChunk)
    (i b : Nat) (prog : UploadProgress) (evs : List NetEvent) (msg : String)
    (h : uploadChunkStep uu up cn (ck i) i = (evs, some msg)) :
    uploadChunksGo false ck el uu up cn (c :: rest) i b prog =
      { prog := prog, events := evs, reports := [], thrown := some msg } := by
  rw [uploadChunksGo, h]
  rfl

theorem uploadChunksGo_reports_ok (er : Bool) (ck : Nat → Bool) (el : Nat → Rat)
    (uu up cn : Option String) :
    ∀ (rest : List UploadChunk) (i b : Nat) (prog : UploadProgress),
      ∀ rep ∈ (uploadChunksGo er ck el uu up cn rest i b prog).reports,
        rep.prog.total = prog.total
        ∧ (rep.ok = true →
            b ≤ rep.prog.uploaded
            ∧ rep.prog.percentage
                = ((rep.prog.uploaded : Rat) / (rep.prog.total : Rat)) * 100
            ∧ rep.prog.speed = (rep.prog.uploaded : Rat) / el rep.pos
            ∧ rep.prog.remaining
                = ((rep.prog.total : Rat) - (rep.prog.uploaded : Rat))
                  / rep.prog.speed) := by
  intro rest
  induction rest with
  | nil =>
    intro i b prog rep hrep
    simp [uploadChunksGo] at hrep
  | cons c rest ih =>
    intro i b prog
    rcases hstep : uploadChunkStep uu up cn (ck i) i with ⟨evs, thr⟩
    cases thr with
    | none =>
      rw [uploadChunksGo_cons_ok er ck el uu up cn c rest i b prog evs hstep]
      intro rep hrep
      rcases List.mem_cons.mp hrep with hr | hr
      · subst hr
        exact ⟨rfl, fun _ => ⟨Nat.le_add_right b c.chunkLen, rfl, rfl, rfl⟩⟩
      · have hrec := ih (i + 1) (b + c.chunkLen) (successProg el c i b prog) rep hr
        refine ⟨hrec.1, fun hok => ?_⟩
        obtain ⟨hb, h2, h3, h4⟩ := hrec.2 hok
        exact ⟨by omega, h2, h3, h4⟩
    | some msg =>
      cases er with
      | false =>
        rw [uploadChunksGo_cons_fail_stop ck el uu up cn c rest i b prog evs msg hstep]
        intro rep hrep
        simp at hrep
      | true =>
        rw [uploadChunksGo_cons_fail_resume ck el uu up cn c rest i b prog evs msg hstep]
        intro rep hrep
        rcases List.mem_cons.mp hrep with hr | hr
        · subst hr
          exact ⟨rfl, fun hok => absurd hok (by simp)⟩
        · exact ih (i + 1) b (failProg i prog) rep hr

theorem uploadChunksGo_reports_pos (er : Bool) (ck : Nat → Bool) (el : Nat → Rat)
    (uu up cn : Option String) :
    ∀ (rest : List UploadChunk) (i b : Nat) (prog : UploadProgress),
      (∀ c0 ∈ rest, 1 ≤ c0.chunkLen) →
      ∀ rep ∈ (uploadChunksGo er ck el uu up cn rest i b prog).reports,
        rep.ok = true → b + 1 ≤ rep.prog.uploaded := by
  intro rest
  induction rest with
  | nil =>
    intro i b prog hlen rep hrep
    simp [uploadChunksGo] at hrep
  | cons c rest ih =>
    intro i b prog hlen
    rcases hstep : uploadChunkStep uu up cn (ck i) i with ⟨evs, thr⟩
    cases thr with
    | none =>
      rw [uploadChunksGo_cons_ok er ck el uu up cn c rest i b prog evs hstep]
      intro rep hrep
      rcases List.mem_cons.mp hrep with hr | hr
      · subst hr
        intro _
        have := hlen c (List.mem_cons_self c rest)
        show b + 1 ≤ b + c.chunkLen
        omega
      · intro hok
        have := ih (i + 1) (b + c.chunkLen) (successProg el c i b prog)
          (fun c0 hc0 => hlen c0 (List.mem_cons_of_mem c hc0)) rep hr hok
        omega
    | some msg =>
      cases er with
      | false =>
        rw [uploadChunksGo_cons_fail_stop ck el uu up cn c rest i b prog evs msg hstep]
        intro rep hrep
        simp at hrep
      | true =>
        rw [uploadChunksGo_cons_fail_resume ck el uu up cn c rest i b prog evs msg hstep]
        intro rep hrep
        rcases List.mem_cons.mp hrep with hr | hr
        · subst hr
          intro hok
          exact absurd hok (by simp)
        · exact ih (i + 1) b (failProg i prog)
            (fun c0 hc0 => hlen c0 (List.mem_cons_of_mem c hc0)) rep hr

theorem perc_mono (a b T : Nat) (h : a ≤ b) :
    ((a : Rat) / (T : Rat)) * 100 ≤ ((b : Rat) / (T : Rat)) * 100 := by
  rcases Nat.eq_zero_or_pos T with hT | hT
  · subst hT
    simp
  · have hTq : (0 : Rat) < T := by exact_mod_cast hT
    have hab : (a : Rat) ≤ b := by exact_mod_cast h
    gcongr

theorem uploadChunksGo_pairwise (er : Bool) (ck : Nat → Bool) (el : Nat → Rat)
    (uu up cn : Option String) :
    ∀ (rest : List UploadChunk) (i b : Nat) (prog : UploadProgress),
      List.Pairwise (fun r1 r2 => r1.ok = true → r2.ok = true →
        r1.prog.percentage ≤ r2.prog.percentage)
        (uploadChunksGo er ck el uu up cn rest i b prog).reports := by
  intro rest
  induction rest with
  | nil =>
    intro i b prog
    exact List.Pairwise.nil
  | cons c rest ih =>
    intro i b prog
    rcases hstep : uploadChunkStep uu up cn (ck i) i with ⟨evs, thr⟩
    cases thr with
    | none =>
      rw [uploadChunksGo_cons_ok er ck el uu up cn c rest i b prog evs hstep,
        List.pairwise_cons]
      constructor
      · intro y hy hx hyok
        have hfacts := uploadChunksGo_reports_ok er ck el uu up cn rest (i + 1)
          (b + c.chunkLen) (successProg el c i b prog) y hy
        obtain ⟨hb, hperc, _, _⟩ := hfacts.2 hyok
        show (((b + c.chunkLen : Nat) : Rat) / (prog.total : Rat)) * 100
          ≤ y.prog.percentage
        rw [hperc, hfacts.1]
        exact perc_mono (b + c.chunkLen) y.prog.uploaded prog.total hb
      · exact ih (i + 1) (b + c.chunkLen) (successProg el c i b prog)
    | some msg =>
      cases er with
      | false =>
        rw [uploadChunksGo_cons_fail_stop ck el uu up cn c rest i b prog evs msg hstep]
        exact List.Pairwise.nil
      | true =>
        rw [uploadChunksGo_cons_fail_resume ck el uu up cn c rest i b prog evs msg
          hstep, List.pairwise_cons]
        exact ⟨fun y hy hx => absurd hx (by simp),
          ih (i + 1) b (failProg i prog)⟩

/-- The progress-record invariant of C6: the stored percentage is exactly
`uploaded / total * 100` and the uploaded byte count never exceeds the
total. -/
def Pprog (p : UploadProgress) : Prop :=
  p.percentage = (p.uploaded : Rat) / (p.total : Rat) * 100
  ∧ p.uploaded ≤ p.total

theorem Pprog_initial : Pprog initialUploadProgress := by
  constructor
  · simp [initialUploadProgress]
  · exact le_refl 0

theorem uploadChunksGo_P (er : Bool) (ck : Nat → Bool) (el : Nat → Rat)
    (uu up cn : Option String) :
    ∀ (rest : List UploadChunk) (i b : Nat) (prog : UploadProgress),
      Pprog prog → b + sumLen rest ≤ prog.total →
      Pprog (uploadChunksGo er ck el uu up cn rest i b prog).prog
      ∧ ∀ rep ∈ (uploadChunksGo er ck el uu up cn rest i b prog).reports,
          Pprog rep.prog := by
  intro rest
  induction rest with
  | nil =>
    intro i b prog hP hsum
    refine ⟨hP, ?_⟩
    intro rep hrep
    simp [uploadChunksGo] at hrep
  | cons c rest ih =>
    intro i b prog hP hsum
    rw [sumLen_cons] at hsum
    rcases hstep : uploadChunkStep uu up cn (ck i) i with ⟨evs, thr⟩
    cases thr with
    | none =>
      rw [uploadChunksGo_cons_ok er ck el uu up cn c rest i b prog evs hstep]
      have hP2 : Pprog (successProg el c i b prog) := by
        constructor
        · rfl
        · show b + c.chunkLen ≤ prog.total
          omega
      have hsum2 : (b + c.chunkLen) + sumLen rest ≤ (successProg el c i b prog).total := by
        show (b + c.chunkLen) + sumLen rest ≤ prog.total
        omega
      obtain ⟨hf, hr⟩ := ih (i + 1) (b + c.chunkLen) (successProg el c i b prog) hP2 hsum2
      refine ⟨hf, ?_⟩
      intro rep hrep
      rcases List.mem_cons.mp hrep with h1 | h1
      · subst h1
        exact hP2
      · exact hr rep h1
    | some msg =>
      cases er with
      | false =>
        rw [uploadChunksGo_cons_fail_stop ck el uu up cn c rest i b prog evs msg hstep]
        refine ⟨hP, ?_⟩
        intro rep hrep
        simp at hrep
      | true =>
        rw [uploadChunksGo_cons_fail_resume ck el uu up cn c rest i b prog evs msg hstep]
        have hP2 : Pprog (failProg i prog) := ⟨hP.1, hP.2⟩
        have hsum2 : b + sumLen rest ≤ (failProg i prog).total := by
          show b + sumLen rest ≤ prog.total
          omega
        obtain ⟨hf, hr⟩ := ih (i + 1) b (failProg i prog) hP2 hsum2
        refine ⟨hf, ?_⟩
        intro rep hrep
        rcases List.mem_cons.mp hrep with h1 | h1
        · subst h1
          exact hP2
        · exact hr rep h1

theorem uploadChunksGo_allok_final (er : Bool) (ck : Nat → Bool) (el : Nat → Rat)
    (uu up cn : Option String)
    (huu : jsTruthyS uu = true) (hup : jsTruthyS up = true)
    (hcn : jsTruthyS cn = true) (hok : ∀ k, ck k = true) :
    ∀ (rest : List UploadChunk) (i b : Nat) (prog : UploadProgress), rest ≠ [] →
      (uploadChunksGo er ck el uu up cn rest i b prog).prog.uploaded
          = b + sumLen rest
      ∧ (uploadChunksGo er ck el uu up cn rest i b prog).prog.percentage
          = (((b + sumLen rest : Nat) : Rat) / (prog.total : Rat)) * 100
      ∧ (uploadChunksGo er ck el uu up cn rest i b prog).prog.total = prog.total := by
  intro rest
  induction rest with
  | nil =>
    intro i b prog hne
    exact absurd rfl hne
  | cons c rest ih =>
    intro i b prog hne
    have hstep : uploadChunkStep uu up cn (ck i) i
        = ([NetEvent.chunkRequest i], none) := by
      rw [uploadChunkStep_truthy uu up cn huu hup hcn (ck i) i, hok i]
      rfl
    rw [uploadChunksGo_cons_ok er ck el uu up cn c rest i b prog
      [NetEvent.chunkRequest i] hstep]
    cases rest with
    | nil =>
      have hsum : sumLen [c] = c.chunkLen := by simp [sumLen]
      refine ⟨?_, ?_, rfl⟩
      · show (successProg el c i b prog).uploaded = b + sumLen [c]
        rw [hsum]
        rfl
      · show (successProg el c i b prog).percentage
          = (((b + sumLen [c] : Nat) : Rat) / (prog.total : Rat)) * 100
        rw [hsum]
        rfl
    | cons c2 rest2 =>
      obtain ⟨hu, hp, ht⟩ := ih (i + 1) (b + c.chunkLen)
        (successProg el c i b prog) (by simp)
      have hsum : b + sumLen (c :: c2 :: rest2)
          = (b + c.chunkLen) + sumLen (c2 :: rest2) := by
        rw [sumLen_cons]
        omega
      refine ⟨?_, ?_, ht⟩
      · rw [hsum]
        exact hu
      · rw [hsum]
        exact hp

theorem uploadChunksGo_allok_last (er : Bool) (ck : Nat → Bool) (el : Nat → Rat)
    (uu up cn : Option String)
    (huu : jsTruthyS uu = true) (hup : jsTruthyS up = true)
    (hcn : jsTruthyS cn = true) (hok : ∀ k, ck k = true) :
    ∀ (rest : List UploadChunk) (i b : Nat) (prog : UploadProgress), rest ≠ [] →
      ∃ rep ∈ (uploadChunksGo er ck el uu up cn rest i b prog).reports,
        rep.pos = i + rest.length - 1 ∧ rep.ok = true
        ∧ rep.prog = (uploadChunksGo er ck el uu up cn rest i b prog).prog := by
  intro rest
  induction rest with
  | nil =>
    intro i b prog hne
    exact absurd rfl hne
  | cons c rest ih =>
    intro i b prog hne
    have hstep : uploadChunkStep uu up cn (ck i) i
        = ([NetEvent.chunkRequest i], none) := by
      rw [uploadChunkStep_truthy uu up cn huu hup hcn (ck i) i, hok i]
      rfl
    rw [uploadChunksGo_cons_ok er ck el uu up cn c rest i b prog
      [NetEvent.chunkRequest i] hstep]
    cases rest with
    | nil =>
      refine ⟨⟨i, true, successProg el c i b prog⟩, List.mem_cons_self _ _,
        ?_, rfl, rfl⟩
      show i = i + [c].length - 1
      simp
    | cons c2 rest2 =>
      obtain ⟨rep, hmem, h1, h2, h3⟩ := ih (i + 1) (b + c.chunkLen)
        (successProg el c i b prog) (by simp)
      refine ⟨rep, List.mem_cons_of_mem _ hmem, ?_, h2, h3⟩
      simp only [List.length_cons] at h1 ⊢
      omega

theorem uploadChunksGo_allok_marks (er : Bool) (ck : Nat → Bool) (el : Nat → Rat)
    (uu up cn : Option String)
    (huu : jsTruthyS uu = true) (hup : jsTruthyS up = true)
    (hcn : jsTruthyS cn = true) (hok : ∀ k, ck k = true) :
    ∀ (rest : List UploadChunk) (i b : Nat) (prog : UploadProgress),
      prog.chunks.length = i + rest.length →
      (∀ j c0, j < i → prog.chunks.get? j = some c0 → c0.uploaded = true) →
      ∀ j c0,
        (uploadChunksGo er ck el uu up cn rest i b prog).prog.chunks.get? j
          = some c0 → c0.uploaded = true := by
  intro rest
  induction rest with
  | nil =>
    intro i b prog hlen hprev j c0 hj
    have hj' : prog.chunks.get? j = some c0 := hj
    have hj2 : j < prog.chunks.length := by
      by_contra hno
      rw [List.get?_eq_none.mpr (by omega)] at hj'
      exact Option.noConfusion hj'
    simp only [List.length_nil] at hlen
    exact hprev j c0 (by omega) hj'
  | cons c rest ih =>
    intro i b prog hlen hprev j c0 hj
    have hstep : uploadChunkStep uu up cn (ck i) i
        = ([NetEvent.chunkRequest i], none) := by
      rw [uploadChunkStep_truthy uu up cn huu hup hcn (ck i) i, hok i]
      rfl
    rw [uploadChunksGo_cons_ok er ck el uu up cn c rest i b prog
      [NetEvent.chunkRequest i] hstep] at hj
    have hj2 : (uploadChunksGo er ck el uu up cn rest (i + 1) (b + c.chunkLen)
        (successProg el c i b prog)).prog.chunks.get? j = some c0 := hj
    apply ih (i + 1) (b + c.chunkLen) (successProg el c i b prog) ?_ ?_ j c0 hj2
    · show (markChunk prog.chunks i true).length = i + 1 + rest.length
      rw [markChunk_length]
      simp only [List.length_cons] at hlen
      omega
    · intro j2 c2 hj2lt hget
      have hget' : (markChunk prog.chunks i true).get? j2 = some c2 := hget
      rw [markChunk_get?] at hget'
      by_cases hji : j2 = i
      · rw [if_pos hji] at hget'
        cases hpc : prog.chunks.get? j2 with
        | none =>
          rw [hpc] at hget'
          simp at hget'
        | some c3 =>
          rw [hpc] at hget'
          simp at hget'
          rw [← hget']
      · rw [if_neg hji] at hget'
        exact hprev j2 c2 (by omega) hget'

theorem all_uploaded_of_get? (l : List UploadChunk)
    (h : ∀ j c0, l.get? j = some c0 → c0.uploaded = true) :
    l.all (fun c => c.uploaded) = true := by
  induction l with
  | nil => rfl
  | cons c rest ih =>
    simp only [List.all_cons, Bool.and_eq_true]
    constructor
    · exact h 0 c rfl
    · exact ih (fun j c0 hj => h (j + 1) c0 (by rw [List.get?_cons_succ]; exact hj))

/-- C5: across the progress stores of one run, any two successful-chunk
stores appear with non-decreasing percentage (monotonicity across
successive successful chunk uploads); and when every chunk transfer
succeeds, the store made after the final chunk (position `count - 1`) has
percentage exactly 100 and every chunk marked uploaded. -/
theorem claim_C5_progress_monotone (env : Env) (cs : Nat) (er : Bool)
    (st : ComponentState) (f : JsFile) (d : InitData)
    (hf : st.videoFile = some f) (ht : ¬(jsTrim st.title = ""))
    (hi : env.initResp = some d) (hfs : 0 < f.size) (hcs : 0 < cs)
    (hdu : d.uploadUrl ≠ "") (hdp : d.uploadPreset ≠ "") (hdc : d.cloudName ≠ "") :
    List.Pairwise (fun r1 r2 => r1.ok = true → r2.ok = true →
      r1.prog.percentage ≤ r2.prog.percentage) (handleUpload env cs er st).reports
    ∧ ((∀ k, env.chunkOk k = true) →
        ∃ rep ∈ (handleUpload env cs er st).reports,
          rep.pos = numChunks f.size cs - 1
          ∧ rep.ok = true ∧ rep.prog.percentage = 100
          ∧ rep.prog.chunks.all (fun c => c.uploaded) = true) := by
  have huu : jsTruthyS ((initState d cs f st).uploadUrl) = true := by
    show jsTruthyS (some d.uploadUrl) = true
    simp [jsTruthyS, hdu]
  have hup : jsTruthyS ((initState d cs f st).uploadPreset) = true := by
    show jsTruthyS (some d.uploadPreset) = true
    simp [jsTruthyS, hdp]
  have hcn : jsTruthyS ((initState d cs f st).cloudName) = true := by
    show jsTruthyS (some d.cloudName) = true
    simp [jsTruthyS, hdc]
  have hlen0 : (initState d cs f st).uploadProgress.chunks.length
      = numChunks f.size cs := by
    show (createChunks f.size cs 0 0).length = _
    exact initializeChunks_length f.size cs hcs
  have hne : ¬((initState d cs f st).uploadProgress.chunks.length = 0) := by
    rw [hlen0]
    have := numChunks_pos f.size cs hfs hcs
    omega
  have hstep := uploadChunksStep_nonempty er env.chunkOk env.elapsedAt
    (initState d cs f st) hne
  have hrep_eq : (handleUpload env cs er st).reports
      = (uploadChunksGo er env.chunkOk env.elapsedAt
          (initState d cs f st).uploadUrl (initState d cs f st).uploadPreset
          (initState d cs f st).cloudName
          (initState d cs f st).uploadProgress.chunks 0 0
          (initState d cs f st).uploadProgress).reports := by
    cases hth : (uploadChunksStep er env.chunkOk env.elapsedAt
        (initState d cs f st)).thrown with
    | some msg =>
      rw [handleUpload_phases_throw env cs er st f d msg hf ht hi hth, hstep]
    | none =>
      rw [handleUpload_phases_done env cs er st f d hf ht hi hth, hstep]
  constructor
  · rw [hrep_eq]
    exact uploadChunksGo_pairwise er env.chunkOk env.elapsedAt _ _ _ _ 0 0 _
  · intro hok
    rw [hrep_eq]
    have hchne : (initState d cs f st).uploadProgress.chunks ≠ [] := by
      intro hnil
      apply hne
      rw [hnil]
      rfl
    obtain ⟨rep, hmem, hpos, hokr, hprogeq⟩ := uploadChunksGo_allok_last er
      env.chunkOk env.elapsedAt _ _ _ huu hup hcn hok
      (initState d cs f st).uploadProgress.chunks 0 0
      (initState d cs f st).uploadProgress hchne
    obtain ⟨hu, hp, htot⟩ := uploadChunksGo_allok_final er
      env.chunkOk env.elapsedAt _ _ _ huu hup hcn hok
      (initState d cs f st).uploadProgress.chunks 0 0
      (initState d cs f st).uploadProgress hchne
    refine ⟨rep, hmem, ?_, hokr, ?_, ?_⟩
    · rw [hpos, hlen0]
      omega
    · rw [hprogeq, hp]
      have hsum : sumLen (initState d cs f st).uploadProgress.chunks = f.size := by
        show sumLen (createChunks f.size cs 0 0) = f.size
        exact sumLen_initializeChunks f.size cs hcs
      have htot0 : (initState d cs f st).uploadProgress.total = f.size := rfl
      rw [hsum, htot0]
      have hcast : ((0 + f.size : Nat) : Rat) = (f.size : Rat) := by norm_num
      rw [hcast]
      have hne2 : ((f.size : Rat)) ≠ 0 := by
        have : (0 : Rat) < f.size := by exact_mod_cast hfs
        exact ne_of_gt this
      rw [div_self hne2]
      norm_num
    · rw [hprogeq]
      apply all_uploaded_of_get?
      intro j c0 hj
      exact uploadChunksGo_allok_marks er env.chunkOk env.elapsedAt _ _ _
        huu hup hcn hok (initState d cs f st).uploadProgress.chunks 0 0
        (initState d cs f st).uploadProgress (by omega)
        (fun j2 c2 hj2 _ => absurd hj2 (Nat.not_lt_zero j2)) j c0 hj

/-- Witness for C5: in the all-success run the final store reports exactly
100 percent with every chunk uploaded. -/
theorem claim_C5_progress_monotone_witness :
    ∃ rep ∈ (handleUpload envA 1 true stA).reports,
      rep.pos = numChunks fileA.size 1 - 1
      ∧ rep.ok = true ∧ rep.prog.percentage = 100
      ∧ rep.prog.chunks.all (fun c => c.uploaded) = true :=
  (claim_C5_progress_monotone envA 1 true stA fileA dataA rfl (by decide) rfl
    (by decide) (by decide) (by decide) (by decide) (by decide)).2
    (fun k => rfl)

/-- The percentage facts asserted by C6 for one stored progress value:
it equals `uploaded / total * 100`, it equals that same ratio clamped to
`[0, 100]`, and it lies within `[0, 100]`. -/
def percentageInv (p : UploadProgress) : Prop :=
  p.percentage = (p.uploaded : Rat) / (p.total : Rat) * 100
  ∧ p.percentage = max 0 (min ((p.uploaded : Rat) / (p.total : Rat) * 100) 100)
  ∧ 0 ≤ p.percentage ∧ p.percentage ≤ 100

theorem Pprog_percentageInv (p : UploadProgress) (hp : Pprog p) :
    percentageInv p := by
  obtain ⟨hperc, hle⟩ := hp
  have h0 : (0 : Rat) ≤ (p.uploaded : Rat) / (p.total : Rat) * 100 := by positivity
  have h100 : (p.uploaded : Rat) / (p.total : Rat) * 100 ≤ 100 := by
    rcases Nat.eq_zero_or_pos p.total with hT | hT
    · have hu : p.uploaded = 0 := by omega
      rw [hu, hT]
      norm_num
    · have hT2 : (0 : Rat) < p.total := by exact_mod_cast hT
      have hle2 : (p.uploaded : Rat) ≤ p.total := by exact_mod_cast hle
      have hdiv : (p.uploaded : Rat) / (p.total : Rat) ≤ 1 := by
        rw [div_le_one hT2]
        exact hle2
      calc (p.uploaded : Rat) / (p.total : Rat) * 100 ≤ 1 * 100 := by
            exact mul_le_mul_of_nonneg_right hdiv (by norm_num)
        _ = 100 := by norm_num
  refine ⟨hperc, ?_, by rw [hperc]; exact h0, by rw [hperc]; exact h100⟩
  rw [hperc, min_eq_left h100, max_eq_right h0]

theorem completeUploadStep_P (resp : Option (Option String))
    (st2 : ComponentState) (hP : Pprog st2.uploadProgress) :
    Pprog (completeUploadStep resp st2).state.uploadProgress := by
  unfold completeUploadStep
  by_cases hg : (!(jsTruthyS st2.uploadId) || !(jsTruthyS st2.cloudName)) = true
  · rw [if_pos hg]
    exact hP
  · rw [if_neg hg]
    cases resp with
    | none => exact ⟨hP.1, hP.2⟩
    | some u => exact Pprog_initial

/-- C6: in a job started from the component's initial progress state, every
progress value stored by the transfer loop, and the final progress value of
the run, has `percentage = uploaded / total * 100`, equal to its clamp to
`[0, 100]` and hence always within `[0, 100]`. -/
theorem claim_C6_percentage_range (env : Env) (cs : Nat) (er : Bool)
    (st : ComponentState) (hst : st.uploadProgress = initialUploadProgress) :
    (∀ rep ∈ (handleUpload env cs er st).reports, percentageInv rep.prog)
    ∧ percentageInv (handleUpload env cs er st).state.uploadProgress := by
  cases hf : st.videoFile with
  | none =>
    rw [handleUpload_noFile env cs er st hf]
    refine ⟨fun rep hrep => absurd hrep (by simp), ?_⟩
    rw [hst]
    exact Pprog_percentageInv _ Pprog_initial
  | some f =>
    by_cases ht : jsTrim st.title = ""
    · rw [handleUpload_noTitle env cs er st f hf ht]
      refine ⟨fun rep hrep => absurd hrep (by simp), ?_⟩
      rw [hst]
      exact Pprog_percentageInv _ Pprog_initial
    · cases hi : env.initResp with
      | none =>
        rw [handleUpload_init_err env cs er st f hf ht hi]
        refine ⟨fun rep hrep => absurd hrep (by simp), ?_⟩
        have hP : Pprog st.uploadProgress := by
          rw [hst]
          exact Pprog_initial
        exact Pprog_percentageInv _ ⟨hP.1, hP.2⟩
      | some d =>
        have hP1 : Pprog (initState d cs f st).uploadProgress := by
          constructor
          · show st.uploadProgress.percentage
              = (st.uploadProgress.uploaded : Rat) / ((f.size : Nat) : Rat) * 100
            rw [hst]
            simp [initialUploadProgress]
          · show st.uploadProgress.uploaded ≤ f.size
            rw [hst]
            simp [initialUploadProgress]
        have hsum1 : 0 + sumLen (initState d cs f st).uploadProgress.chunks
            ≤ (initState d cs f st).uploadProgress.total := by
          show 0 + sumLen (createChunks f.size cs 0 0) ≤ f.size
          have h2 : sumLen (createChunks f.size cs 0 0) ≤ f.size :=
            sumLen_initializeChunks_le f.size cs
          omega
        by_cases hlen : (initState d cs f st).uploadProgress.chunks.length = 0
        · have hstepeq : uploadChunksStep er env.chunkOk env.elapsedAt
              (initState d cs f st) =
              { state := initState d cs f st, events := [], reports := [],
                thrown := none } := by
            unfold uploadChunksStep
            rw [if_pos hlen]
          have hdone : (uploadChunksStep er env.chunkOk env.elapsedAt
              (initState d cs f st)).thrown = none := by
            rw [hstepeq]
          rw [handleUpload_phases_done env cs er st f d hf ht hi hdone, hstepeq]
          refine ⟨fun rep hrep => absurd hrep (by simp), ?_⟩
          exact Pprog_percentageInv _
            (completeUploadStep_P env.completeResp _ hP1)
        · have hstep := uploadChunksStep_nonempty er env.chunkOk env.elapsedAt
            (initState d cs f st) hlen
          obtain ⟨hPf, hPr⟩ := uploadChunksGo_P er env.chunkOk env.elapsedAt
            (initState d cs f st).uploadUrl (initState d cs f st).uploadPreset
            (initState d cs f st).cloudName
            (initState d cs f st).uploadProgress.chunks 0 0
            (initState d cs f st).uploadProgress hP1 hsum1
          cases hth : (uploadChunksStep er env.chunkOk env.elapsedAt
              (initState d cs f st)).thrown with
          | some msg =>
            rw [handleUpload_phases_throw env cs er st f d msg hf ht hi hth, hstep]
            refine ⟨fun rep hrep => Pprog_percentageInv _ (hPr rep hrep), ?_⟩
            exact Pprog_percentageInv _ ⟨hPf.1, hPf.2⟩
          | none =>
            rw [handleUpload_phases_done env cs er st f d hf ht hi hth, hstep]
            refine ⟨fun rep hrep => Pprog_percentageInv _ (hPr rep hrep), ?_⟩
            exact Pprog_percentageInv _
              (completeUploadStep_P env.completeResp _ hPf)

/-- Witness for C6 on a concrete all-success run. -/
theorem claim_C6_percentage_range_witness :
    percentageInv (handleUpload envA 1 true stA).state.uploadProgress :=
  (claim_C6_percentage_range envA 1 true stA rfl).2

/-- C7: after every successful chunk upload the stored `speed` is
`uploadedBytes / elapsedSeconds` and the stored `remaining` is
`(total - uploaded) / speed`; moreover `speed` is strictly positive there
(every chunk produced by the partitioner carries at least one byte, so with
positive elapsed time the divisor of the `remaining` computation is never
zero and the `speed == 0` guard condition can never fire). -/
theorem claim_C7_speed_eta (er : Bool) (ck : Nat → Bool) (el : Nat → Rat)
    (uu up cn : Option String) (rest : List UploadChunk)
    (i b : Nat) (prog : UploadProgress)
    (hlen : ∀ c0 ∈ rest, 1 ≤ c0.chunkLen) (hel : ∀ k, 0 < el k) :
    (∀ rep ∈ (uploadChunksGo er ck el uu up cn rest i b prog).reports,
      rep.ok = true →
        rep.prog.speed = (rep.prog.uploaded : Rat) / el rep.pos
        ∧ rep.prog.remaining
            = ((rep.prog.total : Rat) - (rep.prog.uploaded : Rat)) / rep.prog.speed
        ∧ 0 < rep.prog.speed)
    ∧ (∀ fs cs2 s idx, ∀ c0 ∈ createChunks fs cs2 s idx, 1 ≤ c0.chunkLen) := by
  constructor
  · intro rep hrep hok
    obtain ⟨_, hfacts⟩ := uploadChunksGo_reports_ok er ck el uu up cn rest i b
      prog rep hrep
    obtain ⟨hb, hperc, hspeed, hrem⟩ := hfacts hok
    have hpos := uploadChunksGo_reports_pos er ck el uu up cn rest i b prog
      hlen rep hrep hok
    refine ⟨hspeed, hrem, ?_⟩
    rw [hspeed]
    apply div_pos
    · have h1 : (1 : Rat) ≤ rep.prog.uploaded := by
        exact_mod_cast (by omega : 1 ≤ rep.prog.uploaded)
      linarith
    · exact hel rep.pos
  · intro fs cs2 s idx
    exact createChunks_chunkLen_pos fs cs2 (fs - s) s idx (le_refl _)

/-- A one-chunk job and the report its successful transfer stores. -/
def chunkOne : UploadChunk := ⟨0, 0, 1, 1, false⟩

def progOne : UploadProgress :=
  { initialUploadProgress with
    total := 1
    chunks := [chunkOne]
    status := .uploading }

def repC7 : ChunkReport := ⟨0, true, successProg (fun _ => 1) chunkOne 0 0 progOne⟩

/-- Witness for C7 on the one-chunk job with unit elapsed time. -/
theorem claim_C7_speed_eta_witness :
    repC7.prog.speed = (repC7.prog.uploaded : Rat) / (fun _ => (1 : Rat)) repC7.pos
    ∧ repC7.prog.remaining
        = ((repC7.prog.total : Rat) - (repC7.prog.uploaded : Rat)) / repC7.prog.speed
    ∧ 0 < repC7.prog.speed := by
  have hstep : uploadChunkStep (some "u") (some "p") (some "c")
      ((fun _ => true) 0) 0 = ([NetEvent.chunkRequest 0], none) := rfl
  have hmem : repC7 ∈ (uploadChunksGo true (fun _ => true) (fun _ => 1)
      (some "u") (some "p") (some "c") [chunkOne] 0 0 progOne).reports := by
    rw [uploadChunksGo_cons_ok true (fun _ => true) (fun _ => 1) (some "u")
      (some "p") (some "c") chunkOne [] 0 0 progOne [NetEvent.chunkRequest 0] hstep]
    exact List.mem_cons_self _ _
  exact (claim_C7_speed_eta true (fun _ => true) (fun _ => 1) (some "u")
    (some "p") (some "c") [chunkOne] 0 0 progOne (by decide)
    (fun k => by norm_num)).1 repC7 hmem rfl
